import Mathlib

/-!
# Bandcamp client: response reconciliation

A shallow embedding of the decoding, correlation and valuation code of the
package `bandcamp` (files `bandcamp.go`, `item.go`, `client.go`), with the
properties its specification states about it.

Conventions of the embedding.

* Go `int64` values are `Int`; no arithmetic is done on them here, they are only
  copied and printed.
* Go `float64` prices and rates are read exactly, as rationals.
* A Go map with string keys is an association list read by its first match;
  assigning a key conses a new pair, which shadows an older one.
* A Go slice is `Option (List α)`: `none` is the nil slice.
* A Go method with a pointer receiver that returns `error` is a function from
  the receiver's value to the new value and an optional error.
* Calls into the standard library whose result the code only passes on
  (`http.Client.Do`, `io.ReadAll`, `json.Unmarshal` into a fixed struct) are
  parameters holding the call's result.  `json.Unmarshal` into `map[string]any`
  is modelled in full, since `Track.UnmarshalJSON` inspects what it stores; so
  are `time.Parse`, for the one layout that `Time.UnmarshalJSON` passes to it,
  and `json.Unmarshal` into the envelope `Error`.
* A text handed to `Time.UnmarshalJSON` is a string of characters; every
  comparison the parse makes is with an ASCII character.
-/

set_option exponentiation.threshold 4000
set_option linter.dupNamespace false

namespace Bandcamp

/-! ## Go values -/

/-- Values of Go's `error` interface that this package returns. -/
inductive GoError where
  /-- An error produced by a standard-library call (`encoding/json`, `net/http`,
  `io`, `time`); `descr` names the error and is not its message. -/
  | lib (descr : String)
  /-- The result of `errors.New` or `fmt.Errorf`: an error that is only its message. -/
  | errorString (msg : String)
  /-- A `*StatusError` with its `StatusCode`. -/
  | statusError (StatusCode : Int)
  /-- An `*Error` (the API envelope) with its `IsError` and `Message`. -/
  | apiError (IsError : Bool) (Message : String)
  deriving DecidableEq, Repr

/-- A Go map keyed by strings. -/
abbrev GoMap (V : Type) := List (String × V)

/-- The two-valued map index `v, ok := m[k]`: `none` when `ok` is false. -/
def GoMap.get? {V : Type} (m : GoMap V) (k : String) : Option V :=
  match m with
  | [] => none
  | (k', v) :: rest => if k' = k then some v else GoMap.get? rest k

/-- Whether `k` is a key of the map: the `ok` of `v, ok := m[k]`. -/
def GoMap.has {V : Type} (m : GoMap V) (k : String) : Bool :=
  (GoMap.get? m k).isSome

/-- The map assignment `m[k] = v`. -/
def GoMap.set {V : Type} (m : GoMap V) (k : String) (v : V) : GoMap V :=
  (k, v) :: m

/-- A Go slice: `none` is the nil slice, `some xs` a non-nil slice holding `xs`. -/
abbrev Slice (α : Type) := Option (List α)

/-- The elements a `range` loop over the slice visits. -/
def Slice.elems {α : Type} : Slice α → List α
  | none => []
  | some xs => xs

/-- The builtin `append(s, x)`: never nil. -/
def Slice.append {α : Type} (s : Slice α) (x : α) : Slice α :=
  some (Slice.elems s ++ [x])

/-- `strconv.FormatInt(n, 10)`, also what `fmt` prints for the verb `%d`. -/
def FormatInt (n : Int) : String :=
  match n with
  | Int.ofNat m => Nat.repr m
  | Int.negSucc m => "-" ++ Nat.repr (m + 1)

/-! ## JSON texts and `json.Unmarshal` into `map[string]any` -/

/-- A JSON number literal, `-? digits (. digits)? (e ±digits)?`, kept exactly:
its value is `± mantissa * 10 ^ exponent`. -/
structure JNumber where
  neg : Bool
  mantissa : Nat
  exponent : Int
  deriving DecidableEq, Repr

/-- A syntactically valid JSON text, as its syntax tree.  Object members are
kept in the order of the text, repeated keys included. -/
inductive JSON where
  | null
  | bool (b : Bool)
  | number (n : JNumber)
  | string (s : String)
  | array (elems : List JSON)
  | object (members : List (String × JSON))

/-- Dynamic values of Go's empty interface `any`.  The first six constructors are
the dynamic types `json.Unmarshal` stores into an interface value; `int64` and
`mapStringString` are the two further dynamic types that
`Track.UnmarshalJSON` asserts. -/
inductive GoAny where
  | nil
  | bool (b : Bool)
  | float64 (x : JNumber)
  | string (s : String)
  | sliceAny (xs : List GoAny)
  | mapAny (m : List (String × GoAny))
  | int64 (n : Int)
  | mapStringString (m : List (String × String))

/-- The largest magnitude `strconv.ParseFloat(s, 64)` accepts is just below
`2^1024 - 2^970`, half an ulp above `math.MaxFloat64`; from there on the
literal rounds to infinity and `ParseFloat` reports a range error. -/
def float64Overflow : Nat := 2 ^ 1024 - 2 ^ 970

/-- Whether `strconv.ParseFloat` converts the literal without error. -/
def JNumber.fitsFloat64 (n : JNumber) : Bool :=
  match n.exponent with
  | Int.ofNat e => decide (n.mantissa * 10 ^ e < float64Overflow)
  | Int.negSucc e => decide (n.mantissa < float64Overflow * 10 ^ (e + 1))

mutual
/-- Nesting depth of arrays and objects, as counted by the scanner of
`encoding/json`. -/
def JSON.depth : JSON → Nat
  | .array elems => depthElems elems + 1
  | .object members => depthMembers members + 1
  | _ => 0
/-- Largest depth among array elements. -/
def depthElems : List JSON → Nat
  | [] => 0
  | x :: xs => max (JSON.depth x) (depthElems xs)
/-- Largest depth among object members. -/
def depthMembers : List (String × JSON) → Nat
  | [] => 0
  | (_, v) :: rest => max (JSON.depth v) (depthMembers rest)
end

mutual
/-- Whether every number literal of the text converts to `float64`. -/
def JSON.numbersFit : JSON → Bool
  | .number n => n.fitsFloat64
  | .array elems => numbersFitElems elems
  | .object members => numbersFitMembers members
  | _ => true
/-- The same over array elements. -/
def numbersFitElems : List JSON → Bool
  | [] => true
  | x :: xs => JSON.numbersFit x && numbersFitElems xs
/-- The same over object members. -/
def numbersFitMembers : List (String × JSON) → Bool
  | [] => true
  | (_, v) :: rest => JSON.numbersFit v && numbersFitMembers rest
end

mutual
/-- What `json.Unmarshal` stores into an interface value for a JSON text:
`nil`, `bool`, `float64`, `string`, `[]any` or `map[string]any`. -/
def JSON.toAny : JSON → GoAny
  | .null => .nil
  | .bool b => .bool b
  | .number n => .float64 n
  | .string s => .string s
  | .array elems => .sliceAny (toAnyElems elems)
  | .object members => .mapAny (toAnyMembers [] members)
/-- Elements of a decoded array. -/
def toAnyElems : List JSON → List GoAny
  | [] => []
  | x :: xs => JSON.toAny x :: toAnyElems xs
/-- The members of an object assigned to a map one after the other, in the
order of the text: a repeated key keeps its last value. -/
def toAnyMembers (acc : GoMap GoAny) : List (String × JSON) → GoMap GoAny
  | [] => acc
  | (k, v) :: rest => toAnyMembers (GoMap.set acc k (JSON.toAny v)) rest
end

/-- The limit `maxNestingDepth` of `encoding/json`. -/
def maxNestingDepth : Nat := 10000

/-- The call `json.Unmarshal(b, &data)` with `data` a nil `map[string]any`:
the text is first checked (nesting deeper than the limit is a syntax error);
`null` leaves the map nil; an object fills a fresh map, and a number literal
out of `float64` range anywhere in it is reported as an error; every other
JSON value is a type error. -/
def jsonUnmarshalMap (b : JSON) : Except GoError (GoMap GoAny) :=
  if maxNestingDepth < b.depth then
    .error (.lib "json.SyntaxError: exceeded max depth")
  else
    match b with
    | .null => .ok []
    | .object members =>
      if numbersFitMembers members then .ok (toAnyMembers [] members)
      else .error (.lib "json.UnmarshalTypeError: number out of the range of float64")
    | _ => .error (.lib "json.UnmarshalTypeError: not an object")

/-- The map index `m[k]` on a `map[string]any`: the nil interface when absent. -/
def GoAny.index (m : GoMap GoAny) (k : String) : GoAny :=
  match GoMap.get? m k with
  | some v => v
  | none => .nil

/-- The type assertion `x.(string)`. -/
def GoAny.assertString : GoAny → Option String
  | .string s => some s
  | _ => none

/-- The type assertion `x.(int64)`. -/
def GoAny.assertInt64 : GoAny → Option Int
  | .int64 n => some n
  | _ => none

/-- The type assertion `x.(map[string]string)`. -/
def GoAny.assertMapStringString : GoAny → Option (GoMap String)
  | .mapStringString m => some m
  | _ => none

/-! ## Tracks -/

/-- The struct `Track`. -/
structure Track where
  Title : String
  Number : Int
  URL : String
  deriving DecidableEq, Repr

/-- The method `(t *Track) UnmarshalJSON(b []byte) error`: the receiver after
the call and the error returned. -/
def Track.UnmarshalJSON (b : JSON) (t : Track) : Track × Option GoError :=
  match jsonUnmarshalMap b with
  | .error err => (t, some err)
  | .ok data =>
    match (GoAny.index data "title").assertString with
    | none => (t, some (.errorString "bandcamp: expected title"))
    | some title =>
      let t := { t with Title := title }
      let num :=
        match (GoAny.index data "track_number").assertInt64 with
        | some n => some n
        | none => (GoAny.index data "track_num").assertInt64
      let t := match num with
        | some n => { t with Number := n }
        | none => t
      let t := match (GoAny.index data "streaming_url").assertMapStringString with
        | some s => { t with URL := (GoMap.get? s "mp3-128").getD "" }
        | none => t
      (t, none)

/-! ## Timestamps -/

/-- The struct `Time`, which wraps `time.Time`: an instant, held as its date
and clock reading in UTC. -/
structure Time where
  Year : Int
  Month : Nat
  Day : Nat
  Hour : Nat
  Minute : Nat
  Second : Nat
  Nanosecond : Nat
  deriving DecidableEq, Repr

/-- The zero value `Time{}`: January 1 of year 1, 00:00:00 UTC. -/
def Time.zero : Time := ⟨1, 1, 1, 0, 0, 0, 0⟩

/-- The double quote character. -/
def dquote : Char := Char.ofNat 34

/-- Whether the character is one of `0` to `9`: the test `isDigit` of package
`time` on one character. -/
def isDigitChar (c : Char) : Bool :=
  decide (48 ≤ c.toNat) && decide (c.toNat ≤ 57)

/-- The value `c - '0'` of a digit. -/
def digitVal (c : Char) : Nat :=
  c.toNat - 48

/-- The function `cutspace` of package `time`: the text without its leading
spaces. -/
def cutspace : List Char → List Char
  | [] => []
  | c :: rest => if c = ' ' then cutspace rest else c :: rest

/-- One step of the function `skip` of package `time` on a layout character
that is not a space: the value has to start with that character. -/
def skipChar (c : Char) : List Char → Option (List Char)
  | [] => none
  | v :: rest => if v = c then some rest else none

/-- One step of `skip` on a space of the layout, which no other space follows:
the value has to be empty or to start with a space, and loses all its leading
spaces. -/
def skipSpace : List Char → Option (List Char)
  | [] => some []
  | v :: rest => if v = ' ' then some (cutspace rest) else none

/-- The function `getnum` of package `time`: a number of two digits, or of one
digit when `fixed` is false and no second digit follows. -/
def getnum (s : List Char) (fixed : Bool) : Option (Nat × List Char) :=
  match s with
  | [] => none
  | a :: rest =>
    if isDigitChar a then
      match rest with
      | [] => if fixed then none else some (digitVal a, rest)
      | b :: rest2 =>
        if isDigitChar b then some (digitVal a * 10 + digitVal b, rest2)
        else if fixed then none else some (digitVal a, rest)
    else none

/-- The table `shortMonthNames` of package `time`. -/
def shortMonthNames : List String :=
  ["Jan", "Feb", "Mar", "Apr", "May", "Jun", "Jul", "Aug", "Sep", "Oct", "Nov", "Dec"]

/-- One step of the function `match` of package `time`: the characters are
equal, or they become the same letter `a` to `z` once the bit `0x20` is set. -/
def matchChar (c1 c2 : Char) : Bool :=
  c1 = c2 ||
    (decide ((c1.toNat ||| 32) = (c2.toNat ||| 32)) && decide (97 ≤ (c1.toNat ||| 32)) &&
      decide ((c1.toNat ||| 32) ≤ 122))

/-- The test `len(val) >= len(v) && match(val[0:len(v)], v)` of `lookup`, with
the rest `val[len(v):]` of the value. -/
def matchPrefix : List Char → List Char → Option (List Char)
  | [], val => some val
  | _ :: _, [] => none
  | c2 :: v, c1 :: val => if matchChar c1 c2 then matchPrefix v val else none

/-- The function `lookup` of package `time` on the entries of the table from
index `i` on: the index of the first entry the value starts with, and the rest
of the value. -/
def lookup (i : Nat) : List String → List Char → Option (Nat × List Char)
  | [], _ => none
  | v :: tab, val =>
    match matchPrefix v.data val with
    | some rest => some (i, rest)
    | none => lookup (i + 1) tab val

/-- The case `stdLongYear` of `time.Parse`: four digits. -/
def parseYear : List Char → Option (Nat × List Char)
  | a :: b :: c :: d :: rest =>
    if isDigitChar a && isDigitChar b && isDigitChar c && isDigitChar d then
      some (digitVal a * 1000 + digitVal b * 100 + digitVal c * 10 + digitVal d, rest)
    else none
  | _ => none

/-- The number a run of digits denotes. -/
def digitsVal (ds : List Char) : Nat :=
  ds.foldl (fun n c => 10 * n + digitVal c) 0

/-- The special case of `time.Parse` after the seconds, for a layout without
fractional seconds: a period or comma followed by digits is read as a fraction
of a second, of which `parseNanoseconds` keeps nine digits.  The result is the
nanoseconds and the rest of the value. -/
def parseFraction : List Char → Nat × List Char
  | sep :: d :: rest =>
    if (sep = '.' || sep = ',') && isDigitChar d then
      let digits := (d :: rest).takeWhile isDigitChar
      let kept := digits.take 9
      (digitsVal kept * 10 ^ (9 - kept.length), (d :: rest).dropWhile isDigitChar)
    else (0, sep :: d :: rest)
  | value => (0, value)

/-- The function `isLeap` of package `time`. -/
def isLeap (year : Nat) : Bool :=
  decide (year % 4 = 0) && (decide (year % 100 ≠ 0) || decide (year % 400 = 0))

/-- The function `daysIn` of package `time`, for the months 1 to 12. -/
def daysIn (month year : Nat) : Nat :=
  if month = 2 then (if isLeap year then 29 else 28)
  else if month = 4 ∨ month = 6 ∨ month = 9 ∨ month = 11 then 30
  else 31

/-- The first part of `time.Parse` with the layout of `Time.UnmarshalJSON`:
the quote, `02`, a space, `Jan`, a space, `2006` and a space.  The result is
the day, the month from 1 on, the year, and the rest of the value. -/
def parseDate (value : List Char) : Option (Nat × Nat × Nat × List Char) :=
  match skipChar dquote value with
  | none => none
  | some value =>
  match getnum value true with
  | none => none
  | some (day, value) =>
  match skipSpace value with
  | none => none
  | some value =>
  match lookup 0 shortMonthNames value with
  | none => none
  | some (month, value) =>
  match skipSpace value with
  | none => none
  | some value =>
  match parseYear value with
  | none => none
  | some (year, value) =>
  match skipSpace value with
  | none => none
  | some value => some (day, month + 1, year, value)

/-- The second part: `15`, a colon, `04`, a colon and `05`, each number checked
against its range, and the fraction of a second that may follow.  The result
is the hour, minute, second and nanoseconds, and the rest of the value. -/
def parseClock (value : List Char) : Option (Nat × Nat × Nat × Nat × List Char) :=
  match getnum value false with
  | none => none
  | some (hour, value) =>
  if 24 ≤ hour then none else
  match skipChar ':' value with
  | none => none
  | some value =>
  match getnum value true with
  | none => none
  | some (min, value) =>
  if 60 ≤ min then none else
  match skipChar ':' value with
  | none => none
  | some value =>
  match getnum value true with
  | none => none
  | some (sec, value) =>
  if 60 ≤ sec then none else
  match parseFraction value with
  | (nsec, value) => some (hour, min, sec, nsec, value)

/-- The last part: the literal text of a space, `GMT` and a quote, after which
the value has to end. -/
def parseZone (value : List Char) : Bool :=
  match skipSpace value with
  | none => false
  | some value =>
  match skipChar 'G' value with
  | none => false
  | some value =>
  match skipChar 'M' value with
  | none => false
  | some value =>
  match skipChar 'T' value with
  | none => false
  | some value =>
  match skipChar dquote value with
  | none => false
  | some value => value.isEmpty

/-- The call `time.Parse(layout, value)` with the layout of
`Time.UnmarshalJSON`, which is `02 Jan 2006 15:04:05 GMT` between double
quotes: `some` of the instant, in UTC, or `none` for a parse error.  The day is
checked against the length of the month once the whole value is read. -/
def timeParse (value : List Char) : Option Time :=
  match parseDate value with
  | none => none
  | some (day, month, year, value) =>
  match parseClock value with
  | none => none
  | some (hour, min, sec, nsec, value) =>
  if !parseZone value then none
  else if day < 1 ∨ daysIn month year < day then none
  else some ⟨Int.ofNat year, month, day, hour, min, sec, nsec⟩

/-- The method `(t *Time) UnmarshalJSON(b []byte) error`, on a text `b` given
as its characters: the receiver after the call and the error returned. -/
def Time.UnmarshalJSON (b : String) (t : Time) : Time × Option GoError :=
  if b.data.head? = some 'n' then (Time.zero, none)
  else
    match timeParse b.data with
    | none => (t, some (.lib "time.ParseError"))
    | some date => (date, none)

/-! ## Items and sales -/

/-- The struct `Sale`. -/
structure Sale where
  ID : Int
  /-- The field `Type`. -/
  Typ : String
  deriving DecidableEq, Repr

/-- The struct `Item`; the embedded `Sale` is the field `Sale`. -/
structure Item where
  ID : Int
  /-- The field `Type`. -/
  Typ : String
  BandName : String
  Title : String
  Purchased : Time
  ArtURL : String
  URL : String
  Sale : Sale
  Price : ℚ
  Currency : String
  Download : String
  Tracks : Slice Track
  deriving DecidableEq, Repr

/-- The method `(i Item) String() string`. -/
def Item.String (i : Item) : String :=
  i.Typ ++ FormatInt i.ID

/-- The method `(s Sale) String() string`. -/
def Sale.String (s : Sale) : String :=
  s.Typ ++ FormatInt s.ID

/-! ## Correlation of a collection response -/

/-- The type `Collection`, a slice of `Item`. -/
abbrev Collection := Slice Item

/-- The local struct `data` of `Collection.UnmarshalJSON`. -/
structure CollectionData where
  Items : Slice Item
  RedownloadURLs : GoMap String
  Tracklist : GoMap (Slice Track)
  deriving DecidableEq, Repr

/-- The loop of `Collection.UnmarshalJSON` over the items still to visit, with
the receiver `c` as it stands: the receiver when the loop is left, and the
error returned. -/
def Collection.correlate (data : CollectionData) : List Item → Collection → Collection × Option GoError
  | [], c => (c, none)
  | i :: rest, c =>
    match GoMap.get? data.Tracklist i.String with
    | none => (c, some (.errorString ("item " ++ i.String ++ " missing tracklist")))
    | some tracks =>
      let i := { i with Tracks := tracks }
      match GoMap.get? data.RedownloadURLs i.Sale.String with
      | none => (c, some (.errorString ("item " ++ i.String ++ " missing redownload")))
      | some url =>
        let i := { i with Download := url }
        Collection.correlate data rest (Slice.append c i)

/-- The method `(c *Collection) UnmarshalJSON(b []byte) error`.  The argument
`unmarshal` is the result of `json.Unmarshal(b, &data)`: its error, or the
fragments it decoded.  The result is the receiver after the call and the
error returned. -/
def Collection.UnmarshalJSON (unmarshal : Except GoError CollectionData) (c : Collection) :
    Collection × Option GoError :=
  match unmarshal with
  | .error err => (c, some err)
  | .ok data => Collection.correlate data (Slice.elems data.Items) c

/-! ## Requests -/

/-- The struct `Error`, the API's error envelope. -/
structure Error where
  IsError : Bool
  Message : String
  deriving DecidableEq, Repr

/-- The method `(e Error) Error() string`. -/
def Error.Error (e : Error) : String :=
  e.Message

/-- The struct `StatusError`. -/
structure StatusError where
  StatusCode : Int
  deriving DecidableEq, Repr

/-- The method `(e *StatusError) Error() string`; the argument `StatusText` is
the function `http.StatusText`. -/
def StatusError.Error (StatusText : Int → String) (e : StatusError) : String :=
  "bad response: " ++ StatusText e.StatusCode

/-- The character a key's character is compared as when `encoding/json` looks
for a struct field whose name equals the key under Unicode simple case folding.
The letters `A` to `Z`, the Kelvin sign and the long s are the characters
other than `a` to `z` that fold to one of `a` to `z`. -/
def foldChar (c : Char) : Char :=
  if 65 ≤ c.toNat ∧ c.toNat ≤ 90 then Char.ofNat (c.toNat + 32)
  else if c.toNat = 0x212A then 'k'
  else if c.toNat = 0x17F then 's'
  else c

/-- Whether the key equals, under case folding, the field name `name`, which
is made of the letters `a` to `z` and underscores. -/
def equalFold (name key : String) : Bool :=
  key.data.map foldChar = name.data

/-- The fields of the struct `Error`. -/
inductive ErrorField where
  | IsError
  | Message
  deriving DecidableEq, Repr

/-- The field of `Error` that `encoding/json` decodes the member with the key
`key` into: the field with this JSON name, and failing that the first field
whose JSON name equals the key under case folding. -/
def errorField (key : String) : Option ErrorField :=
  if key = "error" then some .IsError
  else if key = "error_message" then some .Message
  else if equalFold "error" key then some .IsError
  else if equalFold "error_message" key then some .Message
  else none

/-- The members of a JSON object decoded one after the other into an `Error`:
`null` leaves a field as it is, a value of another JSON type than the field's
is recorded as the error to return (the first one is kept) and decoding goes
on, and members that match no field are skipped. -/
def decodeErrorMembers : List (String × JSON) → Error × Option GoError → Error × Option GoError
  | [], st => st
  | (key, v) :: rest, (ret, saved) =>
    match errorField key with
    | none => decodeErrorMembers rest (ret, saved)
    | some .IsError =>
      match v with
      | .bool b => decodeErrorMembers rest ({ ret with IsError := b }, saved)
      | .null => decodeErrorMembers rest (ret, saved)
      | _ => decodeErrorMembers rest
          (ret, saved.orElse fun _ => some (.lib "json.UnmarshalTypeError: Error.error"))
    | some .Message =>
      match v with
      | .string m => decodeErrorMembers rest ({ ret with Message := m }, saved)
      | .null => decodeErrorMembers rest (ret, saved)
      | _ => decodeErrorMembers rest
          (ret, saved.orElse fun _ => some (.lib "json.UnmarshalTypeError: Error.error_message"))

/-- The call `json.Unmarshal(b, &ret)` of `Request`, with `ret` a pointer to a
fresh `Error`, on a body that is a JSON text: the error, or the pointer `ret`
afterwards, which the text `null` sets to nil. -/
def jsonUnmarshalError (b : JSON) : Except GoError (Option Error) :=
  if maxNestingDepth < b.depth then
    .error (.lib "json.SyntaxError: exceeded max depth")
  else
    match b with
    | .null => .ok none
    | .object members =>
      match decodeErrorMembers members (⟨false, ""⟩, none) with
      | (ret, none) => .ok (some ret)
      | (_, some err) => .error err
    | _ => .error (.lib "json.UnmarshalTypeError: not an object")

/-- What `Request` reads of an `http.Response` whose body is of type `β`. -/
structure Response (β : Type) where
  StatusCode : Int
  /-- The value of `resp.Header.Get("Content-Type")`. -/
  ContentType : String
  /-- The result of `io.ReadAll(resp.Body)`. -/
  Body : Except GoError β

/-- The results of the library calls one run of `Request` makes before it
looks at the response. -/
structure Exchange (β : Type) where
  /-- The result of `json.NewEncoder(buf).Encode(body)`. -/
  Encode : Option GoError
  /-- The error of `http.NewRequest`. -/
  NewRequest : Option GoError
  /-- The result of `c.Client.Do(req)`. -/
  Do : Except GoError (Response β)

/-- How a call ends: it returns a value, or the goroutine panics. -/
inductive Outcome (α : Type) where
  | returned (a : α)
  | panicked
  deriving DecidableEq, Repr

/-- The function `strings.HasPrefix`. -/
def HasPrefix (s pre : String) : Bool :=
  pre.data.isPrefixOf s.data

/-- The method `(c *Client) Request(method, endpoint string, body, v any) error`.

* `hasBody` is `body != nil`;
* `unmarshalError b` is the result of `json.Unmarshal(b, &ret)` with `ret` a
  fresh `*Error`: the error, or the pointer `ret` afterwards (`none` when the
  call has set it to nil, which it does for the text `null`);
* `target` is `none` when `v == nil`, and otherwise what
  `json.Unmarshal(b, &v)` does to the value `v` points to.

The result is that value after the call, with the error returned. -/
def Client.Request {β σ : Type} (x : Exchange β) (hasBody : Bool)
    (unmarshalError : β → Except GoError (Option Error))
    (target : Option (β → σ → σ × Option GoError)) (v : σ) : Outcome (σ × Option GoError) :=
  match (if hasBody then x.Encode else none) with
  | some err => .returned (v, some err)
  | none =>
    match x.NewRequest with
    | some err => .returned (v, some err)
    | none =>
      match x.Do with
      | .error err => .returned (v, some err)
      | .ok resp =>
        if !HasPrefix resp.ContentType "application/json" then
          .returned (v, some (.statusError resp.StatusCode))
        else
          match resp.Body with
          | .error err => .returned (v, some err)
          | .ok b =>
            let decode : Outcome (σ × Option GoError) :=
              match target with
              | some unmarshal => .returned (unmarshal b v)
              | none => .returned (v, none)
            match unmarshalError b with
            | .error _ => decode
            | .ok none => .panicked
            | .ok (some ret) =>
              if ret.IsError then .returned (v, some (.apiError ret.IsError ret.Message))
              else decode

/-- The function `(c *Client) GetCollection(id FanID) (Collection, error)`.
The argument `id` only enters the request body.  `unmarshalData b` is the
result of `json.Unmarshal(b, &data)` inside `Collection.UnmarshalJSON`, which
`json.Unmarshal(b, &v)` calls on `ci` with the whole body.  (For a body that is
not valid JSON the outer call returns the syntax error that the inner call
would return, and for the body `null` it leaves `ci` as it is, as the loop over
no items does.) -/
def Client.GetCollection {β : Type} (x : Exchange β)
    (unmarshalError : β → Except GoError (Option Error))
    (unmarshalData : β → Except GoError CollectionData) : Outcome (Collection × Option GoError) :=
  let ci : Collection := none
  match Client.Request x true unmarshalError
      (some (fun b ci => Collection.UnmarshalJSON (unmarshalData b) ci)) ci with
  | .panicked => .panicked
  | .returned (_, some err) => .returned (none, some err)
  | .returned (ci, none) => .returned (ci, none)

/-- The local struct `data` of `GetWishlist`. -/
structure WishlistData where
  Items : Slice Item
  Tracklist : GoMap (Slice Track)
  deriving DecidableEq, Repr

/-- The loop of `GetWishlist` from index `i` on, over the items at and after
that index: these items with their tracks attached, or the error. -/
def Client.GetWishlist.correlate (tracklist : GoMap (Slice Track)) : Nat → List Item → Except GoError (List Item)
  | _, [] => .ok []
  | i, item :: rest =>
    match GoMap.get? tracklist item.String with
    | none => .error (.errorString ("item " ++ FormatInt i ++ " missing tracklist"))
    | some tracks =>
      match Client.GetWishlist.correlate tracklist (i + 1) rest with
      | .error err => .error err
      | .ok rest => .ok ({ item with Tracks := tracks } :: rest)

/-- The function `(c *Client) GetWishlist(id FanID) ([]Item, error)`.
The argument `id` only enters the request body.  `unmarshalData b` is the
result of `json.Unmarshal(b, &v)` on the local struct `data`: its error, or the
struct it has filled.  (What the call has stored in `data` when it returns an
error is not read: `GetWishlist` returns at once.) -/
def Client.GetWishlist {β : Type} (x : Exchange β)
    (unmarshalError : β → Except GoError (Option Error))
    (unmarshalData : β → Except GoError WishlistData) : Outcome (Slice Item × Option GoError) :=
  let data : WishlistData := ⟨none, []⟩
  let target : β → WishlistData → WishlistData × Option GoError := fun b data =>
    match unmarshalData b with
    | .error err => (data, some err)
    | .ok data => (data, none)
  match Client.Request x true unmarshalError (some target) data with
  | .panicked => .panicked
  | .returned (_, some err) => .returned (none, some err)
  | .returned (data, none) =>
    match data.Items with
    | none => .returned (none, none)
    | some items =>
      match Client.GetWishlist.correlate data.Tracklist 0 items with
      | .error err => .returned (none, some err)
      | .ok items => .returned (some items, none)

/-! ## Valuation -/

/-- The results of the calls `Value` makes to fetch the rate table. -/
structure RateFetch where
  /-- The error of `http.NewRequest("GET", f.URL, nil)`. -/
  NewRequest : Option GoError
  /-- The error of `c.Client.Do(req)`. -/
  Do : Option GoError
  /-- The result of `decodeBlob(resp.Body, &data)`: its error, or
  `data.Currencies.Rates`. -/
  DecodeBlob : Except GoError (GoMap ℚ)

/-- The method `(c *Client) Value(f *Fan, items Collection, target string)
(float64, error)`, with `float64` arithmetic read exactly.  The exact reading
has nothing to say of a division by a zero rate, which in Go yields an
infinity or a NaN and here the rational `0`. -/
def Client.Value (x : RateFetch) (items : Collection) (target : String) : ℚ × Option GoError :=
  match x.NewRequest with
  | some err => (-1, some err)
  | none =>
    match x.Do with
    | some err => (-1, some err)
    | none =>
      match x.DecodeBlob with
      | .error err => (-1, some err)
      | .ok rates =>
        match GoMap.get? rates target with
        | none => (-1, some (.errorString ("unknown currency: " ++ target)))
        | some rate =>
          let total : ℚ := (Slice.elems items).foldl
            (fun total item => total + item.Price * (GoMap.get? rates item.Currency).getD 0) 0
          (total / rate, none)

/-! ## Notions used in the statements -/

/-- The request reaches the decode into the caller's target with the body `b`:
no transport error, a JSON content type, a body read in full, and an envelope
decode that either fails or yields an envelope that is not an error. -/
def Delivers {β : Type} (x : Exchange β) (unmarshalError : β → Except GoError (Option Error))
    (b : β) : Prop :=
  x.Encode = none ∧ x.NewRequest = none ∧
  (∃ resp, x.Do = .ok resp ∧ HasPrefix resp.ContentType "application/json" = true ∧
    resp.Body = .ok b) ∧
  ((∃ err, unmarshalError b = .error err) ∨
    (∃ ret, unmarshalError b = .ok (some ret) ∧ ret.IsError = false))

/-- The contribution of an item to the total, in the anchor currency: its price
times the rate of its currency, and zero when the table lacks that currency. -/
def contribution (rates : GoMap ℚ) (i : Item) : ℚ :=
  match GoMap.get? rates i.Currency with
  | some rate => i.Price * rate
  | none => 0

/-- The value a JSON object's text gives the key `k`: that of the last member
with this key, `none` when no member has it. -/
def memberValue (k : String) : List (String × JSON) → Option JSON
  | [] => none
  | (k', v) :: rest =>
    match memberValue k rest with
    | some w => some w
    | none => if k' = k then some v else none

/-- The zero value `Track{}`. -/
def Track.zero : Track := ⟨"", 0, ""⟩

/-- The item `i` with the two correlated fields filled in. -/
def attach (i : Item) (tracks : Slice Track) (url : String) : Item :=
  { i with Tracks := tracks, Download := url }

/-- The item as `Collection.UnmarshalJSON` appends it when both lookups
succeed; the item itself when one of them fails. -/
def correlated (data : CollectionData) (i : Item) : Item :=
  match GoMap.get? data.Tracklist i.String, GoMap.get? data.RedownloadURLs i.Sale.String with
  | some tracks, some url => attach i tracks url
  | _, _ => i

/-- Both correlation keys of the item are keys of their fragments. -/
def matched (data : CollectionData) (i : Item) : Bool :=
  GoMap.has data.Tracklist i.String && GoMap.has data.RedownloadURLs i.Sale.String

/-- Appending a list of items one by one. -/
def Slice.appendAll {α : Type} (s : Slice α) (xs : List α) : Slice α :=
  xs.foldl Slice.append s

/-- The two decimal digits of a number below 100. -/
def pad2 (n : Nat) : List Char :=
  [Nat.digitChar (n / 10), Nat.digitChar (n % 10)]

/-- The four decimal digits of a number below 10000. -/
def pad4 (n : Nat) : List Char :=
  [Nat.digitChar (n / 1000), Nat.digitChar (n / 100 % 10), Nat.digitChar (n / 10 % 10),
    Nat.digitChar (n % 10)]

/-- The abbreviated name of the month, from 1 on. -/
def monthName (month : Nat) : List Char :=
  (shortMonthNames.getD (month - 1) "").data

/-- The characters of the JSON string that holds a date and time in the fixed
format `DD Mon YYYY HH:MM:SS GMT`. -/
def fixedChars (day month year hour minute second : Nat) : List Char :=
  dquote :: (pad2 day ++ ' ' :: (monthName month ++ ' ' :: (pad4 year ++ ' ' ::
    (pad2 hour ++ ':' :: (pad2 minute ++ ':' :: (pad2 second ++
      [' ', 'G', 'M', 'T', dquote]))))))

/-- The JSON string that holds a date and time in the fixed format. -/
def fixedFormat (day month year hour minute second : Nat) : String :=
  String.mk (fixedChars day month year hour minute second)

/-- The date and time are valid: a month from 1 to 12, a day of that month, a
year of four digits, and a clock reading from 00:00:00 to 23:59:59. -/
def validDateTime (day month year hour minute second : Nat) : Prop :=
  1 ≤ month ∧ month ≤ 12 ∧ 1 ≤ day ∧ day ≤ daysIn month year ∧ year ≤ 9999 ∧
  hour < 24 ∧ minute < 60 ∧ second < 60

/-- Every character is a digit. -/
def IsDigits (xs : List Char) : Prop :=
  ∀ c ∈ xs, isDigitChar c = true

/-- A run of one or more spaces. -/
def IsSpaces (xs : List Char) : Prop :=
  xs ≠ [] ∧ ∀ c ∈ xs, c = ' '

/-- The two characters are the same, or are the capital and the small form of
one letter `A` to `Z`. -/
def sameLetter (c1 c2 : Char) : Prop :=
  c1 = c2 ∨ (65 ≤ c1.toNat ∧ c1.toNat ≤ 90 ∧ c2.toNat = c1.toNat + 32) ∨
    (65 ≤ c2.toNat ∧ c2.toNat ≤ 90 ∧ c1.toNat = c2.toNat + 32)

/-- An abbreviated month name, `Jan` to `Dec`, in any letter case. -/
def IsMonthName (xs : List Char) : Prop :=
  ∃ name ∈ shortMonthNames, List.Forall₂ sameLetter xs name.data

/-- Nothing, or a period or comma followed by one or more digits. -/
def IsFraction (xs : List Char) : Prop :=
  xs = [] ∨ ∃ sep ds, xs = sep :: ds ∧ (sep = '.' ∨ sep = ',') ∧ ds ≠ [] ∧ IsDigits ds

/-- The characters of a JSON string in the fixed format `DD Mon YYYY HH:MM:SS
GMT`, where in addition each space may be a run of spaces, the month name may
be in any letter case, the hour may have one digit, and a fraction may follow
the seconds. -/
def InRelaxedFormat (b : List Char) : Prop :=
  ∃ day sp1 mon sp2 year sp3 hour minute second frac sp4,
    b = dquote :: (day ++ sp1 ++ mon ++ sp2 ++ year ++ sp3 ++ hour ++ [':'] ++ minute ++ [':'] ++
      second ++ frac ++ sp4 ++ ['G', 'M', 'T', dquote]) ∧
    day.length = 2 ∧ IsDigits day ∧ IsSpaces sp1 ∧ IsMonthName mon ∧ IsSpaces sp2 ∧
    year.length = 4 ∧ IsDigits year ∧ IsSpaces sp3 ∧
    (hour.length = 1 ∨ hour.length = 2) ∧ IsDigits hour ∧
    minute.length = 2 ∧ IsDigits minute ∧ second.length = 2 ∧ IsDigits second ∧
    IsFraction frac ∧ IsSpaces sp4

/-- The characters of a JSON string in the fixed format `DD Mon YYYY HH:MM:SS
GMT`: two digits, a month name, four digits and three times two digits, with
the separators of the format. -/
def InFixedFormat (b : List Char) : Prop :=
  ∃ day month year hour minute second,
    day < 100 ∧ 1 ≤ month ∧ month ≤ 12 ∧ year ≤ 9999 ∧ hour < 100 ∧ minute < 100 ∧
    second < 100 ∧ b = fixedChars day month year hour minute second

/-! ## Example inputs -/

/-- An item with the given type tag and ID, bought in the sale with the given
type tag and ID, and every other field at its zero value. -/
def exItem (typ : String) (id : Int) (saleTyp : String) (saleID : Int) : Item :=
  { ID := id, Typ := typ, BandName := "", Title := "", Purchased := Time.zero, ArtURL := "",
    URL := "", Sale := ⟨saleID, saleTyp⟩, Price := 0, Currency := "", Download := "",
    Tracks := none }

/-- Two items whose tracklists and redownload URLs are all present. -/
def exMatching : CollectionData :=
  { Items := some [exItem "a" 5 "p" 7, exItem "t" 123 "c" 456],
    RedownloadURLs := [("p7", "https://bandcamp.com/download?id=7"),
      ("c456", "https://bandcamp.com/download?id=456")],
    Tracklist := [("a5", some [⟨"Intro", 0, ""⟩, ⟨"Outro", 0, ""⟩]), ("t123", some [⟨"Single", 0, ""⟩])] }

/-- Item `a5` has its tracklist and no redownload URL; item `a123`, after it,
has no tracklist. -/
def exEarlierFails : CollectionData :=
  { Items := some [exItem "a" 5 "p" 7, exItem "a" 123 "p" 456],
    RedownloadURLs := [("p456", "https://bandcamp.com/download?id=456")],
    Tracklist := [("a5", some [⟨"Intro", 0, ""⟩])] }

/-- The fragments of `{"items": [a1 bought in sale p2], "tracklists": {"a1": null},
"redownload_urls": {"p2": ""}}`. -/
def exEmptyEntries : CollectionData :=
  { Items := some [exItem "a" 1 "p" 2],
    RedownloadURLs := [("p2", "")],
    Tracklist := [("a1", none)] }

/-- Item `a5` correlates; item `a123`, after it, has no tracklist. -/
def exSecondFails : CollectionData :=
  { Items := some [exItem "a" 5 "p" 7, exItem "a" 123 "p" 456],
    RedownloadURLs := [("p7", "https://bandcamp.com/download?id=7")],
    Tracklist := [("a5", some [⟨"Intro", 0, ""⟩])] }

/-- A wishlist response in which item `a5` has its tracklist and item `a123`,
at index 1, has none. -/
def exWishlist : WishlistData :=
  { Items := some [exItem "a" 5 "" 0, exItem "a" 123 "" 0],
    Tracklist := [("a5", some [⟨"Intro", 0, ""⟩])] }

/-- An exchange that delivers the body `b` with status 200 and a JSON content type. -/
def exExchange {β : Type} (b : β) : Exchange β :=
  { Encode := none, NewRequest := none,
    Do := .ok { StatusCode := 200, ContentType := "application/json; charset=utf-8", Body := .ok b } }

/-- The envelope decode of a body that is a JSON object without the envelope's
keys: the fresh `Error` is left at its zero value. -/
def exNoEnvelope {β : Type} (_ : β) : Except GoError (Option Error) :=
  .ok (some ⟨false, ""⟩)

/-- The rate table `{USD: 1.0, EUR: 0.9, GBP: 0.8}`, fetched without error. -/
def exRates : RateFetch :=
  { NewRequest := none, Do := none, DecodeBlob := .ok [("USD", 1), ("EUR", 9 / 10), ("GBP", 8 / 10)] }

/-- The items `[{price: 10, currency: "USD"}, {price: 5, currency: "EUR"}]`. -/
def exPriced : Collection :=
  some [{ exItem "a" 1 "p" 1 with Price := 10, Currency := "USD" },
    { exItem "a" 2 "p" 2 with Price := 5, Currency := "EUR" }]

/-- The members of the object `{"title": "Intro", "track_number": 3}`. -/
def exTrackNumberMembers : List (String × JSON) :=
  [("title", .string "Intro"), ("track_number", .number ⟨false, 3, 0⟩)]

/-- The track `{"title": "Intro", "track_number": 3}`. -/
def exTrackNumber : JSON :=
  .object exTrackNumberMembers

/-- The track `{"title": "Intro", "track_num": 7}`. -/
def exTrackNum : JSON :=
  .object [("title", .string "Intro"), ("track_num", .number ⟨false, 7, 0⟩)]

/-- The track `{"title": "Intro", "streaming_url": {"mp3-128": "https://t4.bcbits.com/stream/1"}}`. -/
def exTrackStream : JSON :=
  .object [("title", .string "Intro"),
    ("streaming_url", .object [("mp3-128", .string "https://t4.bcbits.com/stream/1")])]

/-- The members of the object `{"title": "Intro", "track_number": 1e999}`. -/
def exTrackHugeMembers : List (String × JSON) :=
  [("title", .string "Intro"), ("track_number", .number ⟨false, 1, 999⟩)]

/-- The members of the object `{"title": "Intro", "duration": 1e999}`. -/
def exTrackLongMembers : List (String × JSON) :=
  [("title", .string "Intro"), ("duration", .number ⟨false, 1, 999⟩)]

/-- The members of the object `{"title": "Intro", "duration": 61.5}`. -/
def exTrackPlainMembers : List (String × JSON) :=
  [("title", .string "Intro"), ("duration", .number ⟨false, 615, -1⟩)]

/-- Every item has its tracklist; item `a5` has its redownload URL and item
`t123`, after it, has none. -/
def exNoRedownload : CollectionData :=
  { Items := some [exItem "a" 5 "p" 7, exItem "t" 123 "c" 456, exItem "a" 9 "r" 1],
    RedownloadURLs := [("p7", "https://bandcamp.com/download?id=7")],
    Tracklist := [("a5", some [⟨"Intro", 0, ""⟩]), ("t123", some [⟨"Single", 0, ""⟩]),
      ("a9", some [])] }

/-- Two items with different identity keys bought in the one sale `r77`. -/
def exSharedSale : CollectionData :=
  { Items := some [exItem "a" 5 "r" 77, exItem "t" 123 "r" 77],
    RedownloadURLs := [("r77", "https://bandcamp.com/download?id=77")],
    Tracklist := [("a5", some [⟨"Intro", 0, ""⟩]), ("t123", some [⟨"Single", 0, ""⟩])] }

/-- A receiver that already holds one item. -/
def exReceiver : Collection :=
  some [exItem "t" 1 "c" 2]

/-- The body `{"error": true, "error_message": "bad fan id"}`. -/
def exEnvelope : JSON :=
  .object [("error", .bool true), ("error_message", .string "bad fan id")]

/-- An exchange that delivers the response with the given status code, content
type and body. -/
def exResponse {β : Type} (code : Int) (contentType : String) (b : β) : Exchange β :=
  { Encode := none, NewRequest := none,
    Do := .ok { StatusCode := code, ContentType := contentType, Body := .ok b } }

/-- A target whose decode stores the marker 1 and returns no error. -/
def exTarget : Option (JSON → Nat → Nat × Option GoError) :=
  some (fun _ _ => (1, none))

/-- The entries of `http.StatusText` for 404 and 500; the empty string stands
for every other entry. -/
def exStatusText (code : Int) : String :=
  if code = 404 then "Not Found"
  else if code = 500 then "Internal Server Error"
  else ""

/-- The JSON string `"17 Mar 2021 9:00:00 GMT"`, whose hour has one digit. -/
def exShortHour : String :=
  "\x2217 Mar 2021 9:00:00 GMT\x22"

/-- The JSON string `"17 mar  2021 10:00:00.5 GMT"`, with a month in small
letters, two spaces after it and a fraction of a second. -/
def exLoose : String :=
  "\x2217 mar  2021 10:00:00.5 GMT\x22"

/-- The JSON string `"2021-03-17T10:00:00Z"`. -/
def exISO : String :=
  "\x222021-03-17T10:00:00Z\x22"

/-! # Properties -/

/-! ## What the generic decode stores -/

/-- A decoded JSON value never has the dynamic type `int64`. -/
theorem toAny_assertInt64 (j : JSON) : (JSON.toAny j).assertInt64 = none := by
  cases j <;> simp [JSON.toAny, GoAny.assertInt64]

/-- A decoded JSON value never has the dynamic type `map[string]string`. -/
theorem toAny_assertMapStringString (j : JSON) : (JSON.toAny j).assertMapStringString = none := by
  cases j <;> simp [JSON.toAny, GoAny.assertMapStringString]

/-- A decoded JSON value is a Go string exactly when the text is a JSON string. -/
theorem toAny_assertString (j : JSON) (s : String) :
    (JSON.toAny j).assertString = some s ↔ j = .string s := by
  cases j <;> simp [JSON.toAny, GoAny.assertString]

/-- The map filled from an object's members holds, under each key, the decoded
value of the key's last member, and otherwise what it held before. -/
theorem get?_toAnyMembers (members : List (String × JSON)) (acc : GoMap GoAny) (k : String) :
    GoMap.get? (toAnyMembers acc members) k =
      match memberValue k members with
      | some v => some (JSON.toAny v)
      | none => GoMap.get? acc k := by
  induction members generalizing acc with
  | nil => simp [toAnyMembers, memberValue]
  | cons kv rest ih =>
    obtain ⟨k', v⟩ := kv
    rw [toAnyMembers, ih, memberValue]
    cases hrest : memberValue k rest with
    | some w => simp
    | none =>
      by_cases hk : k' = k <;> simp [GoMap.set, GoMap.get?, hk]

/-- Indexing the decoded map of an object. -/
theorem index_toAnyMembers (members : List (String × JSON)) (k : String) :
    GoAny.index (toAnyMembers [] members) k =
      match memberValue k members with
      | some v => JSON.toAny v
      | none => .nil := by
  rw [GoAny.index, get?_toAnyMembers]
  cases memberValue k members <;> simp [GoMap.get?]

/-- Whatever `json.Unmarshal` stores in the generic map, no entry of it has the
dynamic type `int64`. -/
theorem jsonUnmarshalMap_assertInt64 (b : JSON) (data : GoMap GoAny) (k : String)
    (h : jsonUnmarshalMap b = .ok data) : (GoAny.index data k).assertInt64 = none := by
  unfold jsonUnmarshalMap at h
  split at h
  · cases h
  · cases b with
    | null =>
      simp only [Except.ok.injEq] at h
      subst h
      simp [GoAny.index, GoMap.get?, GoAny.assertInt64]
    | object members =>
      simp only at h
      split at h
      · simp only [Except.ok.injEq] at h
        subst h
        rw [index_toAnyMembers]
        cases memberValue k members with
        | none => simp [GoAny.assertInt64]
        | some v => simpa using toAny_assertInt64 v
      · cases h
    | _ => cases h

/-- Nor has any entry the dynamic type `map[string]string`. -/
theorem jsonUnmarshalMap_assertMapStringString (b : JSON) (data : GoMap GoAny) (k : String)
    (h : jsonUnmarshalMap b = .ok data) : (GoAny.index data k).assertMapStringString = none := by
  unfold jsonUnmarshalMap at h
  split at h
  · cases h
  · cases b with
    | null =>
      simp only [Except.ok.injEq] at h
      subst h
      simp [GoAny.index, GoMap.get?, GoAny.assertMapStringString]
    | object members =>
      simp only at h
      split at h
      · simp only [Except.ok.injEq] at h
        subst h
        rw [index_toAnyMembers]
        cases memberValue k members with
        | none => simp [GoAny.assertMapStringString]
        | some v => simpa using toAny_assertMapStringString v
      · cases h
    | _ => cases h

/-- What `Track.UnmarshalJSON` does once the generic decode has succeeded: it
fails on a missing or non-string title, and otherwise only sets `Title`. -/
theorem Track.UnmarshalJSON_of_ok (b : JSON) (data : GoMap GoAny) (t : Track)
    (h : jsonUnmarshalMap b = .ok data) :
    Track.UnmarshalJSON b t =
      match (GoAny.index data "title").assertString with
      | none => (t, some (.errorString "bandcamp: expected title"))
      | some title => ({ t with Title := title }, none) := by
  unfold Track.UnmarshalJSON
  rw [h]
  simp only [jsonUnmarshalMap_assertInt64 b data _ h,
    jsonUnmarshalMap_assertMapStringString b data _ h]

/-- `Track.UnmarshalJSON` never changes the receiver's `Number`. -/
theorem Track.UnmarshalJSON_Number (b : JSON) (t : Track) :
    (Track.UnmarshalJSON b t).1.Number = t.Number := by
  cases h : jsonUnmarshalMap b with
  | error e => simp [Track.UnmarshalJSON, h]
  | ok data =>
    rw [Track.UnmarshalJSON_of_ok b data t h]
    cases (GoAny.index data "title").assertString <;> rfl

/-- `Track.UnmarshalJSON` never changes the receiver's `URL`. -/
theorem Track.UnmarshalJSON_URL (b : JSON) (t : Track) :
    (Track.UnmarshalJSON b t).1.URL = t.URL := by
  cases h : jsonUnmarshalMap b with
  | error e => simp [Track.UnmarshalJSON, h]
  | ok data =>
    rw [Track.UnmarshalJSON_of_ok b data t h]
    cases (GoAny.index data "title").assertString <;> rfl


/-! ## The correlation loop -/

theorem GoMap.has_iff {V : Type} (m : GoMap V) (k : String) :
    GoMap.has m k = true ↔ ∃ v, GoMap.get? m k = some v := by
  rw [GoMap.has, Option.isSome_iff_exists]

theorem matched_iff (data : CollectionData) (i : Item) :
    matched data i = true ↔
      (∃ tracks, GoMap.get? data.Tracklist i.String = some tracks) ∧
      (∃ url, GoMap.get? data.RedownloadURLs i.Sale.String = some url) := by
  rw [matched, Bool.and_eq_true, GoMap.has_iff, GoMap.has_iff]

theorem Slice.elems_append {α : Type} (s : Slice α) (x : α) :
    Slice.elems (Slice.append s x) = Slice.elems s ++ [x] := rfl

theorem Slice.elems_appendAll {α : Type} (s : Slice α) (xs : List α) :
    Slice.elems (Slice.appendAll s xs) = Slice.elems s ++ xs := by
  induction xs generalizing s with
  | nil => simp [Slice.appendAll]
  | cons x xs ih =>
    have h := ih (Slice.append s x)
    simp only [Slice.appendAll, List.foldl_cons] at h ⊢
    rw [h, Slice.elems_append]
    simp

theorem correlated_of_get? (data : CollectionData) (i : Item) (tracks : Slice Track) (url : String)
    (ht : GoMap.get? data.Tracklist i.String = some tracks)
    (hu : GoMap.get? data.RedownloadURLs i.Sale.String = some url) :
    correlated data i = attach i tracks url := by
  simp [correlated, ht, hu]

/-- One step of the loop on an item whose two keys are present. -/
theorem Collection.correlate_cons_matched (data : CollectionData) (i : Item) (rest : List Item)
    (c : Collection) (h : matched data i = true) :
    Collection.correlate data (i :: rest) c =
      Collection.correlate data rest (Slice.append c (correlated data i)) := by
  obtain ⟨⟨tracks, ht⟩, ⟨url, hu⟩⟩ := (matched_iff data i).mp h
  have hu' : GoMap.get? data.RedownloadURLs ({ i with Tracks := tracks } : Item).Sale.String = some url := hu
  rw [Collection.correlate, ht]
  simp only [hu']
  rw [correlated_of_get? data i tracks url ht hu]
  rfl

/-- The loop runs through a prefix of matched items, appending each. -/
theorem Collection.correlate_append_matched (data : CollectionData) (pre rest : List Item)
    (c : Collection) (h : ∀ j ∈ pre, matched data j = true) :
    Collection.correlate data (pre ++ rest) c =
      Collection.correlate data rest (Slice.appendAll c (pre.map (correlated data))) := by
  induction pre generalizing c with
  | nil => simp [Slice.appendAll]
  | cons j pre ih =>
    have hj : matched data j = true := h j (List.mem_cons_self j pre)
    have hpre : ∀ k ∈ pre, matched data k = true := fun k hk => h k (List.mem_cons_of_mem j hk)
    rw [List.cons_append, Collection.correlate_cons_matched data j _ c hj, ih _ hpre]
    simp [Slice.appendAll]

/-- The loop stops at an item without tracklist. -/
theorem Collection.correlate_cons_no_tracklist (data : CollectionData) (i : Item) (rest : List Item)
    (c : Collection) (h : GoMap.get? data.Tracklist i.String = none) :
    Collection.correlate data (i :: rest) c =
      (c, some (.errorString ("item " ++ i.String ++ " missing tracklist"))) := by
  rw [Collection.correlate, h]

/-- The loop stops at an item with a tracklist and without redownload URL. -/
theorem Collection.correlate_cons_no_redownload (data : CollectionData) (i : Item) (rest : List Item)
    (c : Collection) (tracks : Slice Track) (ht : GoMap.get? data.Tracklist i.String = some tracks)
    (h : GoMap.get? data.RedownloadURLs i.Sale.String = none) :
    Collection.correlate data (i :: rest) c =
      (c, some (.errorString ("item " ++ i.String ++ " missing redownload"))) := by
  have h' : GoMap.get? data.RedownloadURLs ({ i with Tracks := tracks } : Item).Sale.String = none := h
  rw [Collection.correlate, ht]
  simp only [h']
  rfl

/-- An item is matched, or misses its tracklist, or has one and misses its
redownload URL. -/
theorem matched_cases (data : CollectionData) (i : Item) :
    matched data i = true ∨ GoMap.get? data.Tracklist i.String = none ∨
      ((∃ tracks, GoMap.get? data.Tracklist i.String = some tracks) ∧
        GoMap.get? data.RedownloadURLs i.Sale.String = none) := by
  cases ht : GoMap.get? data.Tracklist i.String with
  | none => exact Or.inr (Or.inl rfl)
  | some tracks =>
    cases hu : GoMap.get? data.RedownloadURLs i.Sale.String with
    | none => exact Or.inr (Or.inr ⟨⟨tracks, rfl⟩, rfl⟩)
    | some url => exact Or.inl ((matched_iff data i).mpr ⟨⟨tracks, ht⟩, ⟨url, hu⟩⟩)

/-- When the loop ends without error, every item it visited was matched, and
the receiver has grown by the correlated items in order. -/
theorem Collection.correlate_ok (data : CollectionData) (todo : List Item) (c c' : Collection)
    (h : Collection.correlate data todo c = (c', none)) :
    (∀ j ∈ todo, matched data j = true) ∧
      c' = Slice.appendAll c (todo.map (correlated data)) := by
  induction todo generalizing c with
  | nil =>
    simp only [Collection.correlate, Prod.mk.injEq, and_true] at h
    simp [Slice.appendAll, h]
  | cons i rest ih =>
    rcases matched_cases data i with hm | hn | ⟨⟨tracks, ht⟩, hn⟩
    · rw [Collection.correlate_cons_matched data i rest c hm] at h
      obtain ⟨hall, hc⟩ := ih _ h
      refine ⟨?_, ?_⟩
      · intro j hj
        rcases List.mem_cons.mp hj with rfl | hj
        · exact hm
        · exact hall j hj
      · simpa [Slice.appendAll] using hc
    · rw [Collection.correlate_cons_no_tracklist data i rest c hn] at h
      simp at h
    · rw [Collection.correlate_cons_no_redownload data i rest c tracks ht hn] at h
      simp at h

/-- The loop's error always names one of the items it was given. -/
theorem Collection.correlate_error (data : CollectionData) (todo : List Item) (c c' : Collection)
    (e : GoError) (h : Collection.correlate data todo c = (c', some e)) :
    ∃ j ∈ todo, e = .errorString ("item " ++ j.String ++ " missing tracklist") ∨
      e = .errorString ("item " ++ j.String ++ " missing redownload") := by
  induction todo generalizing c with
  | nil => simp [Collection.correlate] at h
  | cons i rest ih =>
    rcases matched_cases data i with hm | hn | ⟨⟨tracks, ht⟩, hn⟩
    · rw [Collection.correlate_cons_matched data i rest c hm] at h
      obtain ⟨j, hj, hje⟩ := ih _ h
      exact ⟨j, List.mem_cons_of_mem i hj, hje⟩
    · rw [Collection.correlate_cons_no_tracklist data i rest c hn] at h
      simp only [Prod.mk.injEq, Option.some.injEq] at h
      exact ⟨i, List.mem_cons_self i rest, Or.inl h.2.symm⟩
    · rw [Collection.correlate_cons_no_redownload data i rest c tracks ht hn] at h
      simp only [Prod.mk.injEq, Option.some.injEq] at h
      exact ⟨i, List.mem_cons_self i rest, Or.inr h.2.symm⟩


/-! ## Tracks: number, URL and title -/

/-- C1. The code does not do what the claim says: decoding
`{"title": "Intro", "track_number": 3}` into a zero `Track` succeeds and leaves
`Number` at 0, and so does decoding `{"title": "Intro", "track_num": 7}`. -/
theorem Track.UnmarshalJSON_number_stays_zero :
    Track.UnmarshalJSON exTrackNumber Track.zero = (⟨"Intro", 0, ""⟩, none) ∧
    Track.UnmarshalJSON exTrackNum Track.zero = (⟨"Intro", 0, ""⟩, none) := by
  decide

/-- C2. The code does not do what the claim says: decoding a track whose
`streaming_url` object has the entry `mp3-128` into a zero `Track` succeeds and
leaves `URL` empty. -/
theorem Track.UnmarshalJSON_url_stays_empty :
    Track.UnmarshalJSON exTrackStream Track.zero = (⟨"Intro", 0, ""⟩, none) := by
  decide

/-! ## Correlation -/

theorem forall₂_correlated (data : CollectionData) (xs : List Item)
    (h : ∀ j ∈ xs, matched data j = true) :
    List.Forall₂
      (fun i r => ∃ tracks url, GoMap.get? data.Tracklist i.String = some tracks ∧
        GoMap.get? data.RedownloadURLs i.Sale.String = some url ∧ r = attach i tracks url)
      xs (xs.map (correlated data)) := by
  induction xs with
  | nil => exact List.Forall₂.nil
  | cons i rest ih =>
    obtain ⟨⟨tracks, ht⟩, ⟨url, hu⟩⟩ := (matched_iff data i).mp (h i (List.mem_cons_self i rest))
    refine List.Forall₂.cons ⟨tracks, url, ht, hu, correlated_of_get? data i tracks url ht hu⟩ ?_
    exact ih (fun j hj => h j (List.mem_cons_of_mem i hj))

/-- C3. When the response decodes into fragments in which every item's identity
key is a key of `tracklists` and every item's Sale key is a key of
`redownload_urls`, decoding into an empty Collection returns no error and
yields as many items as the `items` fragment has, in its order, the k-th being
the k-th input item with `Tracks` and `Download` set to the two entries found
and every other field unchanged. -/
theorem Collection.UnmarshalJSON_matching (data : CollectionData) (c : Collection)
    (hc : Slice.elems c = [])
    (ht : ∀ i ∈ Slice.elems data.Items, GoMap.has data.Tracklist i.String = true)
    (hu : ∀ i ∈ Slice.elems data.Items, GoMap.has data.RedownloadURLs i.Sale.String = true) :
    (Collection.UnmarshalJSON (.ok data) c).2 = none ∧
    (Slice.elems (Collection.UnmarshalJSON (.ok data) c).1).length =
      (Slice.elems data.Items).length ∧
    List.Forall₂
      (fun i r => ∃ tracks url, GoMap.get? data.Tracklist i.String = some tracks ∧
        GoMap.get? data.RedownloadURLs i.Sale.String = some url ∧
        r = { i with Tracks := tracks, Download := url })
      (Slice.elems data.Items) (Slice.elems (Collection.UnmarshalJSON (.ok data) c).1) := by
  have hm : ∀ j ∈ Slice.elems data.Items, matched data j = true := fun j hj => by
    rw [matched, ht j hj, hu j hj]; rfl
  have hrun := Collection.correlate_append_matched data (Slice.elems data.Items) [] c hm
  rw [List.append_nil] at hrun
  have hres : Collection.UnmarshalJSON (.ok data) c =
      (Slice.appendAll c ((Slice.elems data.Items).map (correlated data)), none) := by
    rw [Collection.UnmarshalJSON, hrun, Collection.correlate]
  have helems : Slice.elems (Collection.UnmarshalJSON (.ok data) c).1 =
      (Slice.elems data.Items).map (correlated data) := by
    rw [hres, Slice.elems_appendAll, hc, List.nil_append]
  refine ⟨by rw [hres], by rw [helems, List.length_map], ?_⟩
  rw [helems]
  exact forall₂_correlated data _ hm

/-- Witness of C3: the two items of `exMatching`. -/
theorem Collection.UnmarshalJSON_matching_witness :
    Slice.elems (none : Collection) = [] ∧
    (∀ i ∈ Slice.elems exMatching.Items, GoMap.has exMatching.Tracklist i.String = true) ∧
    (∀ i ∈ Slice.elems exMatching.Items,
      GoMap.has exMatching.RedownloadURLs i.Sale.String = true) ∧
    (Collection.UnmarshalJSON (.ok exMatching) none).2 = none ∧
    (Slice.elems (Collection.UnmarshalJSON (.ok exMatching) none).1).length =
      (Slice.elems exMatching.Items).length :=
  have h := Collection.UnmarshalJSON_matching exMatching none rfl (by decide) (by decide)
  ⟨rfl, by decide, by decide, h.1, h.2.1⟩

/-- Counterexample to C4: the item `a123` has no tracklist, and the error names
the earlier item `a5`, whose redownload URL is missing; its message does not
contain `a123`. -/
theorem Collection.UnmarshalJSON_names_earlier_item :
    exItem "a" 123 "p" 456 ∈ Slice.elems exEarlierFails.Items ∧
    (exItem "a" 123 "p" 456).String = "a123" ∧
    GoMap.has exEarlierFails.Tracklist "a123" = false ∧
    (Collection.UnmarshalJSON (.ok exEarlierFails) none).2 =
      some (.errorString "item a5 missing redownload") ∧
    ¬ ("a123".data <:+: "item a5 missing redownload".data) := by
  decide

/-- C4, amended. When the `items` fragment has an entry `i` whose identity key
is no key of `tracklists`, decoding fails, whatever the rest of the response,
and the error names the first item `j`, in input order, that lacks an entry:
every item before `j` has both its entries, `j` is `i` or comes before it, and
the message is "item ", the key of `j` and " missing tracklist" when the
tracklist of `j` is missing, and " missing redownload" when `j` has its
tracklist and its redownload is missing.  So when every item before `i` has
both its entries, the message is "item ", the key of `i` and
" missing tracklist". -/
theorem Collection.UnmarshalJSON_missing_tracklist (data : CollectionData) (c : Collection)
    (pre post : List Item) (i : Item)
    (hitems : Slice.elems data.Items = pre ++ i :: post)
    (hmiss : GoMap.has data.Tracklist i.String = false) :
    (∃ before j rest, pre ++ [i] = before ++ j :: rest ∧
      (∀ x ∈ before, matched data x = true) ∧
      ((GoMap.has data.Tracklist j.String = false ∧
          (Collection.UnmarshalJSON (.ok data) c).2 =
            some (.errorString ("item " ++ j.String ++ " missing tracklist"))) ∨
        (GoMap.has data.Tracklist j.String = true ∧
          GoMap.has data.RedownloadURLs j.Sale.String = false ∧
          (Collection.UnmarshalJSON (.ok data) c).2 =
            some (.errorString ("item " ++ j.String ++ " missing redownload"))))) ∧
    ((∀ j ∈ pre, matched data j = true) →
      (Collection.UnmarshalJSON (.ok data) c).2 =
        some (.errorString ("item " ++ i.String ++ " missing tracklist"))) := by
  have hnone : GoMap.get? data.Tracklist i.String = none := by
    simpa [GoMap.has] using hmiss
  have hrun : Collection.UnmarshalJSON (.ok data) c =
      Collection.correlate data (pre ++ i :: post) c := by
    rw [Collection.UnmarshalJSON, hitems]
  rw [hrun]
  constructor
  · clear hrun hitems
    induction pre generalizing c with
    | nil =>
      refine ⟨[], i, [], rfl, by simp, Or.inl ⟨hmiss, ?_⟩⟩
      rw [List.nil_append, Collection.correlate_cons_no_tracklist data i post c hnone]
    | cons x pre ih =>
      rcases matched_cases data x with hm | hn | ⟨⟨tracks, ht⟩, hn⟩
      · simp only [List.cons_append]
        rw [Collection.correlate_cons_matched data x _ c hm]
        obtain ⟨before, j, rest, hsplit, hbefore, hj⟩ := ih (Slice.append c (correlated data x))
        refine ⟨x :: before, j, rest, by rw [hsplit, List.cons_append], ?_, hj⟩
        intro y hy
        rcases List.mem_cons.mp hy with rfl | hy
        · exact hm
        · exact hbefore y hy
      · refine ⟨[], x, pre ++ [i], rfl, by simp, Or.inl ⟨by simp [GoMap.has, hn], ?_⟩⟩
        simp only [List.cons_append]
        rw [Collection.correlate_cons_no_tracklist data x _ c hn]
      · refine ⟨[], x, pre ++ [i], rfl, by simp,
          Or.inr ⟨by simp [GoMap.has, ht], by simp [GoMap.has, hn], ?_⟩⟩
        simp only [List.cons_append]
        rw [Collection.correlate_cons_no_redownload data x _ c tracks ht hn]
  · intro hpre
    rw [Collection.correlate_append_matched data pre (i :: post) c hpre,
      Collection.correlate_cons_no_tracklist data i post _ hnone]

/-- Witness of C4, amended: in `exSecondFails` the item `a123` comes after the
matched item `a5`. -/
theorem Collection.UnmarshalJSON_missing_tracklist_witness :
    Slice.elems exSecondFails.Items = [exItem "a" 5 "p" 7] ++ exItem "a" 123 "p" 456 :: [] ∧
    GoMap.has exSecondFails.Tracklist (exItem "a" 123 "p" 456).String = false ∧
    (Collection.UnmarshalJSON (.ok exSecondFails) none).2 =
      some (.errorString ("item " ++ (exItem "a" 123 "p" 456).String ++ " missing tracklist")) :=
  ⟨rfl, by decide,
    (Collection.UnmarshalJSON_missing_tracklist exSecondFails none [exItem "a" 5 "p" 7] []
      (exItem "a" 123 "p" 456) rfl (by decide)).2
      (by decide)⟩

/-- Counterexample to C5: the response whose `tracklists` entry for `a1` is
`null` and whose `redownload_urls` entry for `p2` is the empty string decodes
without error into a Collection whose item has nil `Tracks` and an empty
`Download`. -/
theorem Collection.UnmarshalJSON_emits_empty_entries :
    (Collection.UnmarshalJSON (.ok exEmptyEntries) none).2 = none ∧
    ∃ i ∈ Slice.elems (Collection.UnmarshalJSON (.ok exEmptyEntries) none).1,
      i.Tracks = none ∧ i.Download = "" := by
  refine ⟨by decide, attach (exItem "a" 1 "p" 2) none "", by decide, rfl, rfl⟩

/-- C5, amended. Whenever `Collection.UnmarshalJSON` returns no error on an
empty receiver, the response has decoded into fragments, and every item of the
resulting Collection has its identity key among the keys of `tracklists`, with
`Tracks` the entry found there, and its Sale key among the keys of
`redownload_urls`, with `Download` the entry found there. -/
theorem Collection.UnmarshalJSON_entries_present (unmarshal : Except GoError CollectionData)
    (c c' : Collection) (hc : Slice.elems c = [])
    (h : Collection.UnmarshalJSON unmarshal c = (c', none)) :
    ∃ data, unmarshal = .ok data ∧
      ∀ i ∈ Slice.elems c',
        GoMap.get? data.Tracklist i.String = some i.Tracks ∧
        GoMap.get? data.RedownloadURLs i.Sale.String = some i.Download := by
  cases unmarshal with
  | error e => simp [Collection.UnmarshalJSON] at h
  | ok data =>
    refine ⟨data, rfl, ?_⟩
    obtain ⟨hm, hc'⟩ := Collection.correlate_ok data _ c c' h
    intro i hi
    rw [hc', Slice.elems_appendAll, hc, List.nil_append, List.mem_map] at hi
    obtain ⟨j, hj, rfl⟩ := hi
    obtain ⟨⟨tracks, ht⟩, ⟨url, hu⟩⟩ := (matched_iff data j).mp (hm j hj)
    rw [correlated_of_get? data j tracks url ht hu]
    exact ⟨ht, hu⟩

/-- Witness of C5, amended: the two items of `exMatching`. -/
theorem Collection.UnmarshalJSON_entries_present_witness :
    ∃ c', Collection.UnmarshalJSON (.ok exMatching) none = (c', none) ∧
      ∀ i ∈ Slice.elems c',
        GoMap.get? exMatching.Tracklist i.String = some i.Tracks ∧
        GoMap.get? exMatching.RedownloadURLs i.Sale.String = some i.Download := by
  refine ⟨(Collection.UnmarshalJSON (.ok exMatching) none).1, by decide, ?_⟩
  obtain ⟨data, hd, hall⟩ := Collection.UnmarshalJSON_entries_present (.ok exMatching) none
    (Collection.UnmarshalJSON (.ok exMatching) none).1 rfl (by decide)
  cases hd
  exact hall

/-! ## Wishlist and whole calls -/

/-- C6. The code does not do what the claim says: on a wishlist response whose
item `a123`, at index 1, has no tracklist, `GetWishlist` fails with the message
"item 1 missing tracklist", which carries the item's index and not its
identity key. -/
theorem Client.GetWishlist_error_has_index :
    (exItem "a" 123 "" 0).String = "a123" ∧
    Client.GetWishlist (exExchange exWishlist) exNoEnvelope (fun b => .ok b) =
      .returned (none, some (.errorString "item 1 missing tracklist")) ∧
    ¬ ("a123".data <:+: "item 1 missing tracklist".data) := by
  decide

/-- A request that delivers the body `b` ends with the decode into the target. -/
theorem Client.Request_of_delivers {β σ : Type} (x : Exchange β) (hasBody : Bool)
    (unmarshalError : β → Except GoError (Option Error))
    (unmarshal : β → σ → σ × Option GoError) (v : σ) (b : β)
    (h : Delivers x unmarshalError b) :
    Client.Request x hasBody unmarshalError (some unmarshal) v = .returned (unmarshal b v) := by
  obtain ⟨henc, hnew, ⟨resp, hdo, hct, hbody⟩, henv⟩ := h
  unfold Client.Request
  rw [henc, hnew, hdo]
  simp only [ite_self, hct, Bool.not_true, Bool.false_eq_true, if_false, hbody]
  rcases henv with ⟨err, he⟩ | ⟨ret, he, hret⟩
  · rw [he]
  · rw [he]
    simp [hret]

/-- C7. `GetCollection` and `GetWishlist` never return items together with an
error: whenever the error is not nil, the result is nil.  And when the request
delivers a body on which correlation or decoding fails, both return, with nil
and that error, also when `Collection.UnmarshalJSON` had already appended
items to its receiver. -/
theorem Client.error_returns_nil {β : Type} (x : Exchange β)
    (unmarshalError : β → Except GoError (Option Error))
    (unmarshalCollection : β → Except GoError CollectionData)
    (unmarshalWishlist : β → Except GoError WishlistData) :
    (∀ r e, Client.GetCollection x unmarshalError unmarshalCollection = .returned (r, some e) →
      r = none) ∧
    (∀ r e, Client.GetWishlist x unmarshalError unmarshalWishlist = .returned (r, some e) →
      r = none) ∧
    (∀ b c' e, Delivers x unmarshalError b →
      Collection.UnmarshalJSON (unmarshalCollection b) none = (c', some e) →
      Client.GetCollection x unmarshalError unmarshalCollection = .returned (none, some e)) ∧
    (∀ b e, Delivers x unmarshalError b → unmarshalWishlist b = .error e →
      Client.GetWishlist x unmarshalError unmarshalWishlist = .returned (none, some e)) ∧
    (∀ b data items e, Delivers x unmarshalError b → unmarshalWishlist b = .ok data →
      data.Items = some items →
      Client.GetWishlist.correlate data.Tracklist 0 items = .error e →
      Client.GetWishlist x unmarshalError unmarshalWishlist = .returned (none, some e)) := by
  refine ⟨?_, ?_, ?_, ?_, ?_⟩
  · intro r e h
    unfold Client.GetCollection at h
    dsimp only at h
    split at h
    · cases h
    · simp only [Outcome.returned.injEq, Prod.mk.injEq] at h
      exact h.1.symm
    · simp at h
  · intro r e h
    unfold Client.GetWishlist at h
    dsimp only at h
    split at h
    · cases h
    · simp only [Outcome.returned.injEq, Prod.mk.injEq] at h
      exact h.1.symm
    · split at h
      · simp at h
      · split at h
        · simp only [Outcome.returned.injEq, Prod.mk.injEq] at h
          exact h.1.symm
        · simp at h
  · intro b c' e hd hfail
    unfold Client.GetCollection
    dsimp only
    rw [Client.Request_of_delivers x true unmarshalError _ _ b hd]
    simp only [hfail]
  · intro b e hd hfail
    unfold Client.GetWishlist
    dsimp only
    rw [Client.Request_of_delivers x true unmarshalError _ _ b hd]
    simp only [hfail]
  · intro b data items e hd hdata hitems hfail
    unfold Client.GetWishlist
    dsimp only
    rw [Client.Request_of_delivers x true unmarshalError _ _ b hd]
    simp only [hdata, hitems, hfail]

/-- Witness of C7: on `exSecondFails`, `Collection.UnmarshalJSON` has appended
the item `a5` to its receiver when it fails on `a123`, and `GetCollection`
returns nil with the error. -/
theorem Client.error_returns_nil_witness :
    Collection.UnmarshalJSON (.ok exSecondFails) none =
      (some [attach (exItem "a" 5 "p" 7) (some [⟨"Intro", 0, ""⟩]) "https://bandcamp.com/download?id=7"],
        some (.errorString "item a123 missing tracklist")) ∧
    Client.GetCollection (exExchange exSecondFails) exNoEnvelope (fun b => .ok b) =
      .returned (none, some (.errorString "item a123 missing tracklist")) :=
  ⟨by decide,
    (Client.error_returns_nil (exExchange exSecondFails) exNoEnvelope (fun b => .ok b)
      (fun _ => .error (.lib "json: cannot unmarshal"))).2.2.1 exSecondFails
      (some [attach (exItem "a" 5 "p" 7) (some [⟨"Intro", 0, ""⟩])
        "https://bandcamp.com/download?id=7"])
      (.errorString "item a123 missing tracklist")
      ⟨rfl, rfl, ⟨_, rfl, by decide, rfl⟩, Or.inr ⟨_, rfl, rfl⟩⟩ (by decide)⟩

/-! ## Valuation -/

/-- The running total of the loop of `Value` is the sum of the contributions. -/
theorem foldl_contribution (rates : GoMap ℚ) (items : List Item) (init : ℚ) :
    items.foldl (fun total item => total + item.Price * (GoMap.get? rates item.Currency).getD 0)
      init = init + (items.map (contribution rates)).sum := by
  induction items generalizing init with
  | nil => simp
  | cons i rest ih =>
    rw [List.foldl_cons, ih, List.map_cons, List.sum_cons, contribution]
    cases GoMap.get? rates i.Currency <;> simp [add_assoc]

/-- C8. With a rate table, fetched without error, that has the target currency,
`Value` returns no error and, the target's rate not being zero, the sum of the
items' contributions divided by that rate, where an item contributes its price
times the rate of its currency, and zero when the table lacks its currency. -/
theorem Client.Value_total (x : RateFetch) (items : Collection) (target : String)
    (rates : GoMap ℚ) (rate : ℚ)
    (hnew : x.NewRequest = none) (hdo : x.Do = none) (hblob : x.DecodeBlob = .ok rates)
    (hrate : GoMap.get? rates target = some rate) :
    (Client.Value x items target).2 = none ∧
    (rate ≠ 0 →
      (Client.Value x items target).1 =
        ((Slice.elems items).map (contribution rates)).sum / rate) := by
  unfold Client.Value
  rw [hnew, hdo, hblob]
  simp only [hrate]
  rw [foldl_contribution, zero_add]
  exact ⟨trivial, fun _ => rfl⟩

/-- Witness of C8: items `[{10, USD}, {5, EUR}]` with rates
`{USD: 1.0, EUR: 0.9, GBP: 0.8}` and target `GBP` give 18.125. -/
theorem Client.Value_total_witness :
    GoMap.get? [("USD", (1 : ℚ)), ("EUR", 9 / 10), ("GBP", 8 / 10)] "GBP" = some (8 / 10) ∧
    (Client.Value exRates exPriced "GBP").2 = none ∧
    (Client.Value exRates exPriced "GBP").1 = 18.125 := by
  have hrate : GoMap.get? [("USD", (1 : ℚ)), ("EUR", 9 / 10), ("GBP", 8 / 10)] "GBP" =
      some (8 / 10) := by
    simp [GoMap.get?]
  have h := Client.Value_total exRates exPriced "GBP" _ (8 / 10) rfl rfl rfl hrate
  refine ⟨hrate, h.1, ?_⟩
  rw [h.2 (by norm_num)]
  simp [exPriced, exItem, Slice.elems, contribution, GoMap.get?]
  norm_num

/-- C9. With a rate table fetched without error, `Value` fails with the error
"unknown currency: " followed by the target exactly when the target is no key
of the table, whatever the items; it then returns -1, and otherwise it returns
no error. -/
theorem Client.Value_unknown_currency (x : RateFetch) (items : Collection) (target : String)
    (rates : GoMap ℚ)
    (hnew : x.NewRequest = none) (hdo : x.Do = none) (hblob : x.DecodeBlob = .ok rates) :
    ((Client.Value x items target).2 = some (.errorString ("unknown currency: " ++ target)) ↔
      GoMap.has rates target = false) ∧
    (GoMap.has rates target = false →
      Client.Value x items target = (-1, some (.errorString ("unknown currency: " ++ target)))) ∧
    (GoMap.has rates target = true → (Client.Value x items target).2 = none) := by
  unfold Client.Value
  rw [hnew, hdo, hblob]
  cases h : GoMap.get? rates target with
  | none => simp [GoMap.has, h]
  | some rate => simp [GoMap.has, h]

/-- Witness of C9: the target `XAU` with the table `{USD, EUR, GBP}`. -/
theorem Client.Value_unknown_currency_witness :
    exRates.NewRequest = none ∧ exRates.Do = none ∧
    exRates.DecodeBlob = .ok [("USD", 1), ("EUR", 9 / 10), ("GBP", 8 / 10)] ∧
    GoMap.has [("USD", (1 : ℚ)), ("EUR", 9 / 10), ("GBP", 8 / 10)] "XAU" = false ∧
    Client.Value exRates exPriced "XAU" = (-1, some (.errorString "unknown currency: XAU")) :=
  ⟨rfl, rfl, rfl, by decide,
    (Client.Value_unknown_currency exRates exPriced "XAU"
      [("USD", 1), ("EUR", 9 / 10), ("GBP", 8 / 10)] rfl rfl rfl).2.1 (by decide)⟩

/-! ## Tracks: the title -/

/-- Counterexample to C10: the object `{"title": "Intro", "track_number": 1e999}`
has a string title, and decoding it fails, with an error that is not the
"expected title" error, because of the content of its number key. -/
theorem Track.UnmarshalJSON_fails_on_number :
    memberValue "title" exTrackHugeMembers = some (.string "Intro") ∧
    Track.UnmarshalJSON (.object exTrackHugeMembers) Track.zero =
      (Track.zero,
        some (.lib "json.UnmarshalTypeError: number out of the range of float64")) := by
  constructor
  · simp [memberValue, exTrackHugeMembers]
  · decide

/-- C10, amended. For every JSON object that `json.Unmarshal` decodes into a
generic map without error, `Track.UnmarshalJSON` fails with the "expected
title" error exactly when the object has no title or its title is not a JSON
string, and otherwise it returns no error and sets `Title` to the title,
leaving the other fields as they were. -/
theorem Track.UnmarshalJSON_title (members : List (String × JSON)) (t : Track)
    (hdepth : (JSON.object members).depth ≤ maxNestingDepth)
    (hfit : numbersFitMembers members = true) :
    ((Track.UnmarshalJSON (.object members) t).2 =
        some (.errorString "bandcamp: expected title") ↔
      ∀ s, memberValue "title" members ≠ some (.string s)) ∧
    ((∀ s, memberValue "title" members ≠ some (.string s)) →
      (Track.UnmarshalJSON (.object members) t).1 = t) ∧
    (∀ s, memberValue "title" members = some (.string s) →
      Track.UnmarshalJSON (.object members) t = ({ t with Title := s }, none)) := by
  have hok : jsonUnmarshalMap (.object members) = .ok (toAnyMembers [] members) := by
    unfold jsonUnmarshalMap
    rw [if_neg (Nat.not_lt.mpr hdepth)]
    simp [hfit]
  rw [Track.UnmarshalJSON_of_ok _ _ t hok, index_toAnyMembers]
  cases hv : memberValue "title" members with
  | none => simp [GoAny.assertString]
  | some v =>
    cases v <;> simp [JSON.toAny, GoAny.assertString]

/-- Witness of C10, amended: the object `{"title": "Intro", "track_number": 3}`. -/
theorem Track.UnmarshalJSON_title_witness :
    (JSON.object exTrackNumberMembers).depth ≤ maxNestingDepth ∧
    numbersFitMembers exTrackNumberMembers = true ∧
    memberValue "title" exTrackNumberMembers = some (.string "Intro") ∧
    Track.UnmarshalJSON (.object exTrackNumberMembers) Track.zero = (⟨"Intro", 0, ""⟩, none) :=
  have htitle : memberValue "title" exTrackNumberMembers = some (.string "Intro") := by
    simp [memberValue, exTrackNumberMembers]
  ⟨by decide, by decide, htitle,
    (Track.UnmarshalJSON_title exTrackNumberMembers Track.zero (by decide) (by decide)).2.2
      "Intro" htitle⟩

/-! ## Tracks without number and URL -/

/-- Counterexample to C11: the object `{"title": "Intro", "duration": 1e999}` has
a string title and none of the keys `track_number`, `track_num` and
`streaming_url`, and decoding it into a zero `Track` fails. -/
theorem Track.UnmarshalJSON_plain_fails :
    memberValue "title" exTrackLongMembers = some (.string "Intro") ∧
    memberValue "track_number" exTrackLongMembers = none ∧
    memberValue "track_num" exTrackLongMembers = none ∧
    memberValue "streaming_url" exTrackLongMembers = none ∧
    Track.UnmarshalJSON (.object exTrackLongMembers) Track.zero =
      (Track.zero, some (.lib "json.UnmarshalTypeError: number out of the range of float64")) := by
  refine ⟨?_, ?_, ?_, ?_, ?_⟩
  · simp [memberValue, exTrackLongMembers]
  · simp [memberValue, exTrackLongMembers]
  · simp [memberValue, exTrackLongMembers]
  · simp [memberValue, exTrackLongMembers]
  · decide

/-- C11, amended. For every track JSON object that `json.Unmarshal` decodes
into a generic map without error, with a string title and none of the keys
`track_number`, `track_num` and `streaming_url`, decoding into a zero `Track`
returns no error and yields the title with `Number` 0 and an empty `URL`. -/
theorem Track.UnmarshalJSON_plain (members : List (String × JSON)) (title : String)
    (hdepth : (JSON.object members).depth ≤ maxNestingDepth)
    (hfit : numbersFitMembers members = true)
    (htitle : memberValue "title" members = some (.string title))
    (_hnumber : memberValue "track_number" members = none)
    (_hnum : memberValue "track_num" members = none)
    (_hurl : memberValue "streaming_url" members = none) :
    Track.UnmarshalJSON (.object members) Track.zero = (⟨title, 0, ""⟩, none) := by
  have hok : jsonUnmarshalMap (.object members) = .ok (toAnyMembers [] members) := by
    unfold jsonUnmarshalMap
    rw [if_neg (Nat.not_lt.mpr hdepth)]
    simp [hfit]
  rw [Track.UnmarshalJSON_of_ok _ _ _ hok, index_toAnyMembers, htitle]
  rfl

/-- Witness of C11, amended: the object `{"title": "Intro", "duration": 61.5}`. -/
theorem Track.UnmarshalJSON_plain_witness :
    (JSON.object exTrackPlainMembers).depth ≤ maxNestingDepth ∧
    numbersFitMembers exTrackPlainMembers = true ∧
    memberValue "title" exTrackPlainMembers = some (.string "Intro") ∧
    Track.UnmarshalJSON (.object exTrackPlainMembers) Track.zero = (⟨"Intro", 0, ""⟩, none) :=
  have htitle : memberValue "title" exTrackPlainMembers = some (.string "Intro") := by
    simp [memberValue, exTrackPlainMembers]
  ⟨by decide, by decide, htitle,
    Track.UnmarshalJSON_plain exTrackPlainMembers "Intro" (by decide) (by decide) htitle
      (by simp [memberValue, exTrackPlainMembers]) (by simp [memberValue, exTrackPlainMembers])
      (by simp [memberValue, exTrackPlainMembers])⟩

/-! ## Correlation: redownload URLs and the receiver -/

/-- C12. When every item of the response has its tracklist entry and the Sale
key of some item is no key of `redownload_urls`, `Collection.UnmarshalJSON`
fails and the error names the first such item by its Item identity key: its
message is "item ", that key, " missing redownload". -/
theorem Collection.UnmarshalJSON_missing_redownload (data : CollectionData) (c : Collection)
    (pre post : List Item) (i : Item)
    (hitems : Slice.elems data.Items = pre ++ i :: post)
    (htracks : ∀ j ∈ Slice.elems data.Items, GoMap.has data.Tracklist j.String = true)
    (hpre : ∀ j ∈ pre, GoMap.has data.RedownloadURLs j.Sale.String = true)
    (hmiss : GoMap.has data.RedownloadURLs i.Sale.String = false) :
    (Collection.UnmarshalJSON (.ok data) c).2 =
      some (.errorString ("item " ++ i.String ++ " missing redownload")) := by
  have hmatched : ∀ j ∈ pre, matched data j = true := by
    intro j hj
    have hj' : j ∈ Slice.elems data.Items := by
      rw [hitems]
      exact List.mem_append_left _ hj
    rw [matched, htracks j hj', hpre j hj]
    rfl
  have hi : i ∈ Slice.elems data.Items := by
    rw [hitems]
    exact List.mem_append_right _ (List.mem_cons_self i post)
  obtain ⟨tracks, ht⟩ := (GoMap.has_iff _ _).mp (htracks i hi)
  have hnone : GoMap.get? data.RedownloadURLs i.Sale.String = none := by
    simpa [GoMap.has] using hmiss
  rw [Collection.UnmarshalJSON, hitems, Collection.correlate_append_matched data pre _ c hmatched,
    Collection.correlate_cons_no_redownload data i post _ tracks ht hnone]

/-- Witness of C12: in `exNoRedownload` the item `t123` is the first whose
Sale key is missing. -/
theorem Collection.UnmarshalJSON_missing_redownload_witness :
    (∀ j ∈ Slice.elems exNoRedownload.Items,
      GoMap.has exNoRedownload.Tracklist j.String = true) ∧
    GoMap.has exNoRedownload.RedownloadURLs (exItem "t" 123 "c" 456).Sale.String = false ∧
    (Collection.UnmarshalJSON (.ok exNoRedownload) none).2 =
      some (.errorString "item t123 missing redownload") :=
  ⟨by decide, by decide,
    Collection.UnmarshalJSON_missing_redownload exNoRedownload none [exItem "a" 5 "p" 7]
      [exItem "a" 9 "r" 1] (exItem "t" 123 "c" 456) rfl (by decide) (by decide) (by decide)⟩

/-- What a decode without error has done: the response has decoded into
fragments, every item was matched, and the receiver has grown by the
correlated items. -/
theorem Collection.UnmarshalJSON_ok (unmarshal : Except GoError CollectionData)
    (c c' : Collection) (h : Collection.UnmarshalJSON unmarshal c = (c', none)) :
    ∃ data, unmarshal = .ok data ∧
      (∀ j ∈ Slice.elems data.Items, matched data j = true) ∧
      Slice.elems c' = Slice.elems c ++ (Slice.elems data.Items).map (correlated data) := by
  cases unmarshal with
  | error e => simp [Collection.UnmarshalJSON] at h
  | ok data =>
    obtain ⟨hm, hc'⟩ := Collection.correlate_ok data _ c c' h
    exact ⟨data, rfl, hm, by rw [hc', Slice.elems_appendAll]⟩

/-- A correlated item carries the redownload URL found under its Sale key. -/
theorem correlated_Download (data : CollectionData) (j : Item) (h : matched data j = true) :
    GoMap.get? data.RedownloadURLs (correlated data j).Sale.String =
      some (correlated data j).Download := by
  obtain ⟨⟨tracks, ht⟩, ⟨url, hu⟩⟩ := (matched_iff data j).mp h
  rw [correlated_of_get? data j tracks url ht hu]
  exact hu

/-- C18. In every Collection decoded without error from an empty receiver, two
items whose Sales have the same identity key have the same `Download`, whatever
their own identity keys. -/
theorem Collection.UnmarshalJSON_same_sale (unmarshal : Except GoError CollectionData)
    (c c' : Collection) (i j : Item) (hc : Slice.elems c = [])
    (h : Collection.UnmarshalJSON unmarshal c = (c', none))
    (hi : i ∈ Slice.elems c') (hj : j ∈ Slice.elems c')
    (hsale : i.Sale.String = j.Sale.String) :
    i.Download = j.Download := by
  obtain ⟨data, _, hm, helems⟩ := Collection.UnmarshalJSON_ok unmarshal c c' h
  rw [helems, hc, List.nil_append, List.mem_map] at hi hj
  obtain ⟨i0, hi0, rfl⟩ := hi
  obtain ⟨j0, hj0, rfl⟩ := hj
  have h1 := correlated_Download data i0 (hm i0 hi0)
  have h2 := correlated_Download data j0 (hm j0 hj0)
  rw [hsale, h2] at h1
  exact (Option.some.inj h1).symm

/-- Witness of C18: the items `a5` and `t123` of `exSharedSale`, both bought in
the sale `r77`. -/
theorem Collection.UnmarshalJSON_same_sale_witness :
    (attach (exItem "a" 5 "r" 77) (some [⟨"Intro", 0, ""⟩])
        "https://bandcamp.com/download?id=77").String ≠
      (attach (exItem "t" 123 "r" 77) (some [⟨"Single", 0, ""⟩])
        "https://bandcamp.com/download?id=77").String ∧
    (attach (exItem "a" 5 "r" 77) (some [⟨"Intro", 0, ""⟩])
        "https://bandcamp.com/download?id=77").Download =
      (attach (exItem "t" 123 "r" 77) (some [⟨"Single", 0, ""⟩])
        "https://bandcamp.com/download?id=77").Download :=
  ⟨by decide,
    Collection.UnmarshalJSON_same_sale (.ok exSharedSale) none
      (some [attach (exItem "a" 5 "r" 77) (some [⟨"Intro", 0, ""⟩])
          "https://bandcamp.com/download?id=77",
        attach (exItem "t" 123 "r" 77) (some [⟨"Single", 0, ""⟩])
          "https://bandcamp.com/download?id=77"])
      _ _ rfl (by decide) (by decide) (by decide) (by decide)⟩

/-- C19. `Collection.UnmarshalJSON` appends to its receiver.  When every item
has both its entries, it returns no error and the receiver is its previous
contents followed by the correlated items in order.  When the items before
index `k` have both their entries and the item at index `k` lacks one, it
returns an error and the receiver is its previous contents followed by the
first `k` correlated items; it is then the receiver as it was only for
`k = 0`. -/
theorem Collection.UnmarshalJSON_appends (data : CollectionData) (c : Collection) :
    ((∀ j ∈ Slice.elems data.Items, matched data j = true) →
      (Collection.UnmarshalJSON (.ok data) c).2 = none ∧
      Slice.elems (Collection.UnmarshalJSON (.ok data) c).1 =
        Slice.elems c ++ (Slice.elems data.Items).map (correlated data)) ∧
    (∀ pre post i, Slice.elems data.Items = pre ++ i :: post →
      (∀ j ∈ pre, matched data j = true) → matched data i = false →
      (Collection.UnmarshalJSON (.ok data) c).2 ≠ none ∧
      Slice.elems (Collection.UnmarshalJSON (.ok data) c).1 =
        Slice.elems c ++ pre.map (correlated data) ∧
      ((Collection.UnmarshalJSON (.ok data) c).1 = c ↔ pre.length = 0)) := by
  constructor
  · intro hm
    have hrun := Collection.correlate_append_matched data (Slice.elems data.Items) [] c hm
    rw [List.append_nil] at hrun
    rw [Collection.UnmarshalJSON, hrun, Collection.correlate]
    exact ⟨rfl, Slice.elems_appendAll _ _⟩
  · intro pre post i hitems hpre hi
    have hstop : ∀ c0 : Collection, ∃ e,
        Collection.correlate data (i :: post) c0 = (c0, some e) := by
      intro c0
      rcases matched_cases data i with hm | hn | ⟨⟨tracks, ht⟩, hn⟩
      · rw [hm] at hi
        cases hi
      · exact ⟨_, Collection.correlate_cons_no_tracklist data i post c0 hn⟩
      · exact ⟨_, Collection.correlate_cons_no_redownload data i post c0 tracks ht hn⟩
    obtain ⟨e, he⟩ := hstop (Slice.appendAll c (pre.map (correlated data)))
    have hres : Collection.UnmarshalJSON (.ok data) c =
        (Slice.appendAll c (pre.map (correlated data)), some e) := by
      rw [Collection.UnmarshalJSON, hitems, Collection.correlate_append_matched data pre _ c hpre,
        he]
    rw [hres]
    refine ⟨by simp, Slice.elems_appendAll _ _, ?_⟩
    constructor
    · intro heq
      have hlen := congrArg (fun s => (Slice.elems s).length) heq
      simp only [Slice.elems_appendAll, List.length_append, List.length_map] at hlen
      omega
    · intro hlen
      rw [List.length_eq_zero.mp hlen]
      rfl

/-- Witness of C19: on `exSecondFails` with a receiver of one item, the
receiver ends as that item followed by the correlated item `a5`, and an error
is returned. -/
theorem Collection.UnmarshalJSON_appends_witness :
    (Collection.UnmarshalJSON (.ok exSecondFails) exReceiver).2 ≠ none ∧
    Slice.elems (Collection.UnmarshalJSON (.ok exSecondFails) exReceiver).1 =
      Slice.elems exReceiver ++ [exItem "a" 5 "p" 7].map (correlated exSecondFails) :=
  have h := (Collection.UnmarshalJSON_appends exSecondFails exReceiver).2
    [exItem "a" 5 "p" 7] [] (exItem "a" 123 "p" 456) rfl (by decide) (by decide)
  ⟨h.1, h.2.1⟩

/-! ## Classification of responses -/

/-- C13. When the response has a JSON content type and its body decodes into
the envelope with `error` true and `error_message` `m`, `Request` returns the
API error whose message is `m`, whatever the status code and the target, and
the target is left as it was: the decode into it does not take place. -/
theorem Client.Request_api_error {β σ : Type} (x : Exchange β) (hasBody : Bool)
    (unmarshalError : β → Except GoError (Option Error))
    (target : Option (β → σ → σ × Option GoError)) (v : σ)
    (resp : Response β) (b : β) (m : String)
    (hencode : hasBody = true → x.Encode = none) (hnew : x.NewRequest = none)
    (hdo : x.Do = .ok resp)
    (hct : HasPrefix resp.ContentType "application/json" = true)
    (hbody : resp.Body = .ok b)
    (henv : unmarshalError b = .ok (some ⟨true, m⟩)) :
    Client.Request x hasBody unmarshalError target v = .returned (v, some (.apiError true m)) ∧
    Error.Error ⟨true, m⟩ = m := by
  have henc : (if hasBody then x.Encode else none) = none := by
    cases hasBody with
    | false => rfl
    | true => simpa using hencode rfl
  unfold Client.Request
  rw [henc, hnew, hdo]
  simp only [hct, Bool.not_true, Bool.false_eq_true, if_false, hbody, henv, if_true]
  exact ⟨trivial, rfl⟩

/-- Witness of C13: the body `{"error": true, "error_message": "bad fan id"}`
with status 200, and a target whose decode would return no error. -/
theorem Client.Request_api_error_witness :
    jsonUnmarshalError exEnvelope = .ok (some ⟨true, "bad fan id"⟩) ∧
    Client.Request (exResponse 200 "application/json" exEnvelope) true jsonUnmarshalError
      exTarget 0 = .returned (0, some (.apiError true "bad fan id")) :=
  ⟨rfl,
    (Client.Request_api_error (exResponse 200 "application/json" exEnvelope) true
      jsonUnmarshalError exTarget 0 _ exEnvelope "bad fan id" (fun _ => rfl) rfl rfl
      (by decide) rfl rfl).1⟩

/-- C14. When the content type of the response does not start with
`application/json`, `Request` returns the `StatusError` with the status code
of the response, whose message is "bad response: " followed by the status
text, whatever the body, and the target is left as it was. -/
theorem Client.Request_status_error {β σ : Type} (x : Exchange β) (hasBody : Bool)
    (unmarshalError : β → Except GoError (Option Error))
    (target : Option (β → σ → σ × Option GoError)) (v : σ)
    (resp : Response β) (StatusText : Int → String)
    (hencode : hasBody = true → x.Encode = none) (hnew : x.NewRequest = none)
    (hdo : x.Do = .ok resp)
    (hct : HasPrefix resp.ContentType "application/json" = false) :
    Client.Request x hasBody unmarshalError target v =
      .returned (v, some (.statusError resp.StatusCode)) ∧
    StatusError.Error StatusText ⟨resp.StatusCode⟩ =
      "bad response: " ++ StatusText resp.StatusCode := by
  have henc : (if hasBody then x.Encode else none) = none := by
    cases hasBody with
    | false => rfl
    | true => simpa using hencode rfl
  unfold Client.Request
  rw [henc, hnew, hdo]
  simp only [hct, Bool.not_false, if_true]
  exact ⟨trivial, rfl⟩

/-- Witness of C14: an HTML response with status 404 whose body is a
well-formed error envelope. -/
theorem Client.Request_status_error_witness :
    HasPrefix "text/html; charset=utf-8" "application/json" = false ∧
    Client.Request (exResponse 404 "text/html; charset=utf-8" exEnvelope) true
      jsonUnmarshalError exTarget 0 = .returned (0, some (.statusError 404)) ∧
    StatusError.Error exStatusText ⟨404⟩ = "bad response: Not Found" :=
  have h := Client.Request_status_error (exResponse 404 "text/html; charset=utf-8" exEnvelope)
    true jsonUnmarshalError exTarget 0 _ exStatusText (fun _ => rfl) rfl rfl (by decide)
  ⟨by decide, h.1, by decide⟩

/-- C15. Decoding the text `null` yields the zero `Time` and no error, whatever
the receiver held. -/
theorem Time.UnmarshalJSON_null (t : Time) :
    Time.UnmarshalJSON "null" t = (Time.zero, none) := by
  rfl

/-! ## Identity keys -/

theorem isDigitChar_digitChar (k : Nat) (h : k < 10) : isDigitChar (Nat.digitChar k) = true := by
  interval_cases k <;> rfl

theorem digitVal_digitChar (k : Nat) (h : k < 10) : digitVal (Nat.digitChar k) = k := by
  interval_cases k <;> rfl

theorem digitsVal_append_singleton (ds : List Char) (c : Char) :
    digitsVal (ds ++ [c]) = 10 * digitsVal ds + digitVal c := by
  simp [digitsVal, List.foldl_append]

/-- With enough fuel, `Nat.toDigitsCore` puts the decimal digits of `n` in
front of the digits it was given. -/
theorem toDigitsCore_spec (fuel n : Nat) (ds : List Char) (h : n < fuel) :
    ∃ pre, Nat.toDigitsCore 10 fuel n ds = pre ++ ds ∧ digitsVal pre = n ∧ pre ≠ [] ∧
      ∀ c ∈ pre, isDigitChar c = true := by
  induction fuel generalizing n ds with
  | zero => omega
  | succ fuel ih =>
    have hmod : n % 10 < 10 := Nat.mod_lt n (by decide)
    rw [Nat.toDigitsCore]
    by_cases hq : n / 10 = 0
    · refine ⟨[Nat.digitChar (n % 10)], by simp [hq], ?_, by simp, ?_⟩
      · simp only [digitsVal, List.foldl, digitVal_digitChar _ hmod]
        omega
      · intro c hc
        rw [List.mem_singleton] at hc
        rw [hc]
        exact isDigitChar_digitChar _ hmod
    · have hlt : n / 10 < fuel := by omega
      obtain ⟨pre, hpre, hval, _, hdig⟩ := ih (n / 10) (Nat.digitChar (n % 10) :: ds) hlt
      refine ⟨pre ++ [Nat.digitChar (n % 10)], by simp [hq, hpre], ?_, by simp, ?_⟩
      · rw [digitsVal_append_singleton, hval, digitVal_digitChar _ hmod]
        omega
      · intro c hc
        rcases List.mem_append.mp hc with hc | hc
        · exact hdig c hc
        · rw [List.mem_singleton] at hc
          rw [hc]
          exact isDigitChar_digitChar _ hmod

/-- The text `Nat.repr n` is a non-empty run of digits that denotes `n`. -/
theorem repr_spec (n : Nat) :
    digitsVal (Nat.repr n).data = n ∧ (Nat.repr n).data ≠ [] ∧
      ∀ c ∈ (Nat.repr n).data, isDigitChar c = true := by
  obtain ⟨pre, hpre, hval, hne, hdig⟩ := toDigitsCore_spec (n + 1) n [] (Nat.lt_succ_self n)
  have hdata : (Nat.repr n).data = pre := by
    rw [Nat.repr, Nat.toDigits, hpre, List.append_nil]
    rfl
  rw [hdata]
  exact ⟨hval, hne, hdig⟩

theorem repr_injective (a b : Nat) (h : Nat.repr a = Nat.repr b) : a = b := by
  have ha := (repr_spec a).1
  rw [h, (repr_spec b).1] at ha
  exact ha.symm

/-- The text `Nat.repr n` does not start with a minus sign. -/
theorem repr_ne_minus (n : Nat) (s : String) : Nat.repr n ≠ "-" ++ s := by
  intro h
  obtain ⟨_, hne, hdig⟩ := repr_spec n
  have hdata : (Nat.repr n).data = '-' :: s.data := by
    rw [h]
    rfl
  have hmem : '-' ∈ (Nat.repr n).data := by
    rw [hdata]
    exact List.mem_cons_self _ _
  have := hdig '-' hmem
  revert this
  decide

theorem string_append_left_cancel (p s t : String) (h : p ++ s = p ++ t) : s = t := by
  have hdata := congrArg String.data h
  simp only [String.data_append] at hdata
  exact String.ext (List.append_cancel_left hdata)

/-- `strconv.FormatInt(n, 10)` determines `n`. -/
theorem FormatInt_injective (a b : Int) (h : FormatInt a = FormatInt b) : a = b := by
  cases a with
  | ofNat m =>
    cases b with
    | ofNat k =>
      simp only [FormatInt] at h
      rw [repr_injective m k h]
    | negSucc k =>
      simp only [FormatInt] at h
      exact absurd h (repr_ne_minus m _)
  | negSucc m =>
    cases b with
    | ofNat k =>
      simp only [FormatInt] at h
      exact absurd h.symm (repr_ne_minus k _)
    | negSucc k =>
      simp only [FormatInt] at h
      have := repr_injective _ _ (string_append_left_cancel _ _ _ h)
      have hmk : m = k := by omega
      rw [hmk]

/-- Two keys made of a one-character tag and a number are equal only when the
tags and the numbers are. -/
theorem key_injective (c d : Char) (a b : Int)
    (h : String.singleton c ++ FormatInt a = String.singleton d ++ FormatInt b) :
    c = d ∧ a = b := by
  have hdata := congrArg String.data h
  simp only [String.data_append, String.singleton, String.data_push] at hdata
  have hdata' : c :: (FormatInt a).data = d :: (FormatInt b).data := by
    simpa using hdata
  injection hdata' with hc hrest
  exact ⟨hc, FormatInt_injective a b (String.ext hrest)⟩

/-- C20. For two items whose type tags are each `a` or `t`, `Item.String`
returns the same key exactly when the tags and the IDs are the same, for every
integer ID; and likewise `Sale.String` for the sale type tags `c`, `p` and
`r`. -/
theorem identity_keys_unambiguous :
    (∀ i j : Item, (i.Typ = "a" ∨ i.Typ = "t") → (j.Typ = "a" ∨ j.Typ = "t") →
      (i.String = j.String ↔ i.Typ = j.Typ ∧ i.ID = j.ID)) ∧
    (∀ s r : Sale, (s.Typ = "c" ∨ s.Typ = "p" ∨ s.Typ = "r") →
      (r.Typ = "c" ∨ r.Typ = "p" ∨ r.Typ = "r") →
      (s.String = r.String ↔ s.Typ = r.Typ ∧ s.ID = r.ID)) := by
  constructor
  · intro i j hi hj
    constructor
    · intro h
      rw [Item.String, Item.String] at h
      rcases hi with hi | hi <;> rcases hj with hj | hj <;> rw [hi, hj] at h ⊢ <;>
        first
        | exact ⟨rfl, (key_injective _ _ _ _ h).2⟩
        | exact absurd (key_injective _ _ _ _ h).1 (by decide)
    · intro h
      rw [Item.String, Item.String, h.1, h.2]
  · intro s r hs hr
    constructor
    · intro h
      rw [Sale.String, Sale.String] at h
      rcases hs with hs | hs | hs <;> rcases hr with hr | hr | hr <;> rw [hs, hr] at h ⊢ <;>
        first
        | exact ⟨rfl, (key_injective _ _ _ _ h).2⟩
        | exact absurd (key_injective _ _ _ _ h).1 (by decide)
    · intro h
      rw [Sale.String, Sale.String, h.1, h.2]

/-- Witness of C20: the album and the track with ID 0, and the sales `c-7` and
`p-7`, have different keys. -/
theorem identity_keys_unambiguous_witness :
    (exItem "a" 0 "c" (-7)).String ≠ (exItem "t" 0 "p" (-7)).String ∧
    (exItem "a" 0 "c" (-7)).Sale.String ≠ (exItem "t" 0 "p" (-7)).Sale.String :=
  ⟨fun h => absurd ((identity_keys_unambiguous.1 (exItem "a" 0 "c" (-7))
      (exItem "t" 0 "p" (-7)) (Or.inl rfl) (Or.inr rfl)).mp h).1 (by decide),
    fun h => absurd ((identity_keys_unambiguous.2 (exItem "a" 0 "c" (-7)).Sale
      (exItem "t" 0 "p" (-7)).Sale (Or.inl rfl) (Or.inr (Or.inl rfl))).mp h).1 (by decide)⟩

/-! ## Timestamps in the fixed format -/

theorem digitChar_ne_space (k : Nat) (h : k < 10) : Nat.digitChar k ≠ ' ' := by
  interval_cases k <;> decide

theorem getnum_pad2 (n : Nat) (h : n < 100) (rest : List Char) (fixed : Bool) :
    getnum (pad2 n ++ rest) fixed = some (n, rest) := by
  have h1 : n / 10 < 10 := by omega
  have h2 : n % 10 < 10 := by omega
  simp only [pad2, List.cons_append, List.nil_append, getnum, isDigitChar_digitChar _ h1,
    isDigitChar_digitChar _ h2, if_true, digitVal_digitChar _ h1, digitVal_digitChar _ h2]
  congr 2
  omega

theorem parseYear_pad4 (n : Nat) (h : n ≤ 9999) (rest : List Char) :
    parseYear (pad4 n ++ rest) = some (n, rest) := by
  have h1 : n / 1000 < 10 := by omega
  have h2 : n / 100 % 10 < 10 := by omega
  have h3 : n / 10 % 10 < 10 := by omega
  have h4 : n % 10 < 10 := by omega
  simp only [pad4, List.cons_append, List.nil_append, parseYear, isDigitChar_digitChar _ h1,
    isDigitChar_digitChar _ h2, isDigitChar_digitChar _ h3, isDigitChar_digitChar _ h4,
    Bool.and_self, if_true, digitVal_digitChar _ h1, digitVal_digitChar _ h2,
    digitVal_digitChar _ h3, digitVal_digitChar _ h4]
  congr 2
  omega

theorem skipSpace_space (c : Char) (rest : List Char) (h : c ≠ ' ') :
    skipSpace (' ' :: c :: rest) = some (c :: rest) := by
  simp [skipSpace, cutspace, h]

theorem lookup_monthName (month : Nat) (h1 : 1 ≤ month) (h12 : month ≤ 12) (rest : List Char) :
    lookup 0 shortMonthNames (monthName month ++ rest) = some (month - 1, rest) := by
  interval_cases month <;> rfl

theorem monthName_head (month : Nat) (h1 : 1 ≤ month) (h12 : month ≤ 12) :
    ∃ c cs, monthName month = c :: cs ∧ c ≠ ' ' := by
  interval_cases month <;> exact ⟨_, _, rfl, by decide⟩

theorem pad2_head (n : Nat) (h : n < 100) : ∃ c cs, pad2 n = c :: cs ∧ c ≠ ' ' :=
  ⟨_, _, rfl, digitChar_ne_space _ (by omega)⟩

theorem pad4_head (n : Nat) (h : n ≤ 9999) : ∃ c cs, pad4 n = c :: cs ∧ c ≠ ' ' :=
  ⟨_, _, rfl, digitChar_ne_space _ (by omega)⟩

theorem skipSpace_append (xs rest : List Char) (h : ∃ c cs, xs = c :: cs ∧ c ≠ ' ') :
    skipSpace (' ' :: (xs ++ rest)) = some (xs ++ rest) := by
  obtain ⟨c, cs, rfl, hc⟩ := h
  exact skipSpace_space c (cs ++ rest) hc

/-- The first part of the parse on a text in the fixed format. -/
theorem parseDate_fixed (day month year : Nat) (rest : List Char)
    (hday : day < 100) (h1 : 1 ≤ month) (h12 : month ≤ 12) (hyear : year ≤ 9999)
    (hrest : ∃ c cs, rest = c :: cs ∧ c ≠ ' ') :
    parseDate (dquote :: (pad2 day ++ ' ' :: (monthName month ++ ' ' :: (pad4 year ++ ' ' ::
      rest)))) = some (day, month, year, rest) := by
  obtain ⟨c, cs, rfl, hc⟩ := hrest
  have hm : month - 1 + 1 = month := by omega
  simp only [parseDate, skipChar, if_true, getnum_pad2 day hday,
    skipSpace_append _ _ (monthName_head month h1 h12), lookup_monthName month h1 h12,
    skipSpace_append _ _ (pad4_head year hyear), parseYear_pad4 year hyear,
    skipSpace_space c cs hc, hm]

/-- The second part of the parse on a text in the fixed format. -/
theorem parseClock_fixed (hour minute second : Nat) (rest : List Char)
    (hhour : hour < 24) (hminute : minute < 60) (hsecond : second < 60) :
    parseClock (pad2 hour ++ ':' :: (pad2 minute ++ ':' :: (pad2 second ++ ' ' :: rest))) =
      some (hour, minute, second, 0, ' ' :: rest) := by
  have hf : parseFraction (' ' :: rest) = (0, ' ' :: rest) := by
    cases rest with
    | nil => rfl
    | cons d rest => simp [parseFraction]
  simp only [parseClock, getnum_pad2 hour (by omega), getnum_pad2 minute (by omega),
    getnum_pad2 second (by omega), skipChar, if_true, Nat.not_le.mpr hhour,
    Nat.not_le.mpr hminute, Nat.not_le.mpr hsecond, if_false, hf]

/-- C16. For every valid date and time, decoding the JSON string that holds it
in the fixed format `DD Mon YYYY HH:MM:SS GMT` returns no error and yields the
instant with that day, month, year, hour, minute and second in UTC, whatever
the receiver held. -/
theorem Time.UnmarshalJSON_fixed (day month year hour minute second : Nat) (t : Time)
    (h : validDateTime day month year hour minute second) :
    Time.UnmarshalJSON (fixedFormat day month year hour minute second) t =
      (⟨Int.ofNat year, month, day, hour, minute, second, 0⟩, none) := by
  obtain ⟨h1, h12, hd1, hdn, hyear, hhour, hminute, hsecond⟩ := h
  have hdays : daysIn month year ≤ 31 := by
    unfold daysIn
    split
    · split <;> omega
    · split <;> omega
  have hday : day < 100 := by omega
  have hdate := parseDate_fixed day month year
    (pad2 hour ++ ':' :: (pad2 minute ++ ':' :: (pad2 second ++ [' ', 'G', 'M', 'T', dquote])))
    hday h1 h12 hyear ⟨_, _, rfl, digitChar_ne_space _ (by omega)⟩
  have hclock := parseClock_fixed hour minute second ['G', 'M', 'T', dquote] hhour hminute hsecond
  have hzone : parseZone [' ', 'G', 'M', 'T', dquote] = true := by decide
  have hparse : timeParse (fixedChars day month year hour minute second) =
      some ⟨Int.ofNat year, month, day, hour, minute, second, 0⟩ := by
    unfold timeParse fixedChars
    rw [hdate]
    simp only [hclock, hzone, Bool.not_true, Bool.false_eq_true, if_false]
    rw [if_neg (by omega)]
  have hhead : (fixedFormat day month year hour minute second).data.head? ≠ some 'n' := by
    simp [fixedFormat, fixedChars, dquote]
  have hdata : (fixedFormat day month year hour minute second).data =
      fixedChars day month year hour minute second := rfl
  unfold Time.UnmarshalJSON
  rw [if_neg hhead, hdata, hparse]

/-- Witness of C16: the string `"17 Mar 2021 10:00:00 GMT"` yields
2021-03-17 10:00:00 UTC. -/
theorem Time.UnmarshalJSON_fixed_witness :
    validDateTime 17 3 2021 10 0 0 ∧
    fixedFormat 17 3 2021 10 0 0 = "\x2217 Mar 2021 10:00:00 GMT\x22" ∧
    Time.UnmarshalJSON "\x2217 Mar 2021 10:00:00 GMT\x22" Time.zero =
      (⟨2021, 3, 17, 10, 0, 0, 0⟩, none) :=
  have hvalid : validDateTime 17 3 2021 10 0 0 := by
    unfold validDateTime
    decide
  ⟨hvalid, by decide, Time.UnmarshalJSON_fixed 17 3 2021 10 0 0 Time.zero hvalid⟩

/-! ## Reading the parse backwards -/

theorem skipChar_inv (c : Char) (v r : List Char) (h : skipChar c v = some r) : v = c :: r := by
  cases v with
  | nil => simp [skipChar] at h
  | cons a rest =>
    simp only [skipChar] at h
    split at h
    · next hac =>
      rw [hac, Option.some.inj h]
    · cases h

theorem cutspace_inv (v : List Char) : ∃ k, v = List.replicate k ' ' ++ cutspace v := by
  induction v with
  | nil => exact ⟨0, rfl⟩
  | cons a rest ih =>
    rw [cutspace]
    split
    · next ha =>
      obtain ⟨k, hk⟩ := ih
      refine ⟨k + 1, ?_⟩
      rw [ha, List.replicate_succ, List.cons_append, ← hk]
    · exact ⟨0, rfl⟩

theorem skipSpace_inv (v r : List Char) (h : skipSpace v = some r) (hr : r ≠ []) :
    ∃ sp, IsSpaces sp ∧ v = sp ++ r := by
  cases v with
  | nil =>
    simp only [skipSpace, Option.some.injEq] at h
    exact absurd h.symm hr
  | cons a rest =>
    simp only [skipSpace] at h
    split at h
    · next ha =>
      obtain ⟨k, hk⟩ := cutspace_inv rest
      refine ⟨' ' :: List.replicate k ' ', ⟨by simp, ?_⟩, ?_⟩
      · intro c hc
        rcases List.mem_cons.mp hc with hc | hc
        · exact hc
        · exact List.eq_of_mem_replicate hc
      · rw [ha, List.cons_append, ← Option.some.inj h, ← hk]
    · cases h

theorem getnum_fixed_inv (v r : List Char) (n : Nat) (h : getnum v true = some (n, r)) :
    ∃ ds, v = ds ++ r ∧ ds.length = 2 ∧ IsDigits ds := by
  cases v with
  | nil => simp [getnum] at h
  | cons a rest =>
    simp only [getnum] at h
    split at h
    · next ha =>
      cases rest with
      | nil => simp at h
      | cons b rest2 =>
        simp only at h
        split at h
        · next hb =>
          simp only [Option.some.injEq, Prod.mk.injEq] at h
          refine ⟨[a, b], by simp [h.2], rfl, ?_⟩
          intro c hc
          simp only [List.mem_cons, List.mem_singleton, List.not_mem_nil, or_false] at hc
          rcases hc with hc | hc <;> rw [hc] <;> assumption
        · simp at h
    · cases h

theorem getnum_inv (v r : List Char) (n : Nat) (h : getnum v false = some (n, r)) :
    ∃ ds, v = ds ++ r ∧ (ds.length = 1 ∨ ds.length = 2) ∧ IsDigits ds := by
  cases v with
  | nil => simp [getnum] at h
  | cons a rest =>
    simp only [getnum] at h
    split at h
    · next ha =>
      cases rest with
      | nil =>
        simp only [Bool.false_eq_true, if_false, Option.some.injEq, Prod.mk.injEq] at h
        refine ⟨[a], by simp [h.2], Or.inl rfl, ?_⟩
        intro c hc
        rw [List.mem_singleton] at hc
        rw [hc]
        exact ha
      | cons b rest2 =>
        simp only at h
        split at h
        · next hb =>
          simp only [Option.some.injEq, Prod.mk.injEq] at h
          refine ⟨[a, b], by simp [h.2], Or.inr rfl, ?_⟩
          intro c hc
          simp only [List.mem_cons, List.mem_singleton, List.not_mem_nil, or_false] at hc
          rcases hc with hc | hc <;> rw [hc] <;> assumption
        · simp only [Bool.false_eq_true, if_false, Option.some.injEq, Prod.mk.injEq] at h
          refine ⟨[a], by simp [h.2], Or.inl rfl, ?_⟩
          intro c hc
          rw [List.mem_singleton] at hc
          rw [hc]
          exact ha
    · cases h

theorem parseYear_inv (v r : List Char) (n : Nat) (h : parseYear v = some (n, r)) :
    ∃ ds, v = ds ++ r ∧ ds.length = 4 ∧ IsDigits ds := by
  unfold parseYear at h
  split at h
  · next a b c d rest =>
    split at h
    · next hd =>
      simp only [Bool.and_eq_true] at hd
      simp only [Option.some.injEq, Prod.mk.injEq] at h
      refine ⟨[a, b, c, d], by simp [h.2], rfl, ?_⟩
      intro x hx
      simp only [List.mem_cons, List.mem_singleton, List.not_mem_nil, or_false] at hx
      rcases hx with hx | hx | hx | hx <;> rw [hx] <;> simp [hd]
    · cases h
  · cases h

/-- Setting the bit `0x20` of a character code that becomes one of `a` to `z`
leaves a small letter as it is and adds 32 to a capital letter. -/
theorem lor_32_letter : ∀ x < 123, 97 ≤ (x ||| 32) → (x ||| 32) ≤ 122 →
    ((x ||| 32) = x ∧ 97 ≤ x) ∨ ((x ||| 32) = x + 32 ∧ 65 ≤ x ∧ x ≤ 90) := by
  decide

theorem le_lor (x y : Nat) : x ≤ (x ||| y) :=
  Nat.le_of_testBit (fun i hi => by simp [Nat.testBit_or, hi])

theorem toNat_injective (c1 c2 : Char) (h : c1.toNat = c2.toNat) : c1 = c2 := by
  rw [← Char.ofNat_toNat c1, ← Char.ofNat_toNat c2, h]

theorem matchChar_sameLetter (c1 c2 : Char) (h : matchChar c1 c2 = true) : sameLetter c1 c2 := by
  simp only [matchChar, Bool.or_eq_true, Bool.and_eq_true, decide_eq_true_eq] at h
  rcases h with h | ⟨⟨heq, hlo⟩, hhi⟩
  · exact Or.inl h
  · have hle1 : c1.toNat ≤ (c1.toNat ||| 32) := le_lor _ _
    have hle2 : c2.toNat ≤ (c2.toNat ||| 32) := le_lor _ _
    have h1 := lor_32_letter c1.toNat (by omega) hlo hhi
    have h2 := lor_32_letter c2.toNat (by omega) (by omega) (by omega)
    rcases h1 with ⟨e1, _⟩ | ⟨e1, l1, u1⟩ <;> rcases h2 with ⟨e2, _⟩ | ⟨e2, l2, u2⟩
    · exact Or.inl (toNat_injective c1 c2 (by omega))
    · exact Or.inr (Or.inr ⟨l2, u2, by omega⟩)
    · exact Or.inr (Or.inl ⟨l1, u1, by omega⟩)
    · exact Or.inl (toNat_injective c1 c2 (by omega))

theorem matchPrefix_inv (name v r : List Char) (h : matchPrefix name v = some r) :
    ∃ xs, v = xs ++ r ∧ List.Forall₂ sameLetter xs name := by
  induction name generalizing v with
  | nil =>
    simp only [matchPrefix, Option.some.injEq] at h
    exact ⟨[], by simp [h], List.Forall₂.nil⟩
  | cons c2 name ih =>
    cases v with
    | nil => simp [matchPrefix] at h
    | cons c1 v =>
      simp only [matchPrefix] at h
      split at h
      · next hc =>
        obtain ⟨xs, hv, hxs⟩ := ih v h
        exact ⟨c1 :: xs, by rw [hv, List.cons_append],
          List.Forall₂.cons (matchChar_sameLetter c1 c2 hc) hxs⟩
      · cases h

theorem lookup_inv (tab : List String) (i j : Nat) (v r : List Char)
    (h : lookup i tab v = some (j, r)) :
    ∃ xs, v = xs ++ r ∧ ∃ name ∈ tab, List.Forall₂ sameLetter xs name.data := by
  induction tab generalizing i with
  | nil => simp [lookup] at h
  | cons name tab ih =>
    simp only [lookup] at h
    split at h
    · next rest hm =>
      simp only [Option.some.injEq, Prod.mk.injEq] at h
      obtain ⟨xs, hv, hxs⟩ := matchPrefix_inv name.data v rest hm
      exact ⟨xs, by rw [hv, h.2], name, List.mem_cons_self _ _, hxs⟩
    · obtain ⟨xs, hv, nm, hnm, hxs⟩ := ih (i + 1) h
      exact ⟨xs, hv, nm, List.mem_cons_of_mem _ hnm, hxs⟩

theorem parseFraction_inv (v : List Char) :
    ∃ frac, v = frac ++ (parseFraction v).2 ∧ IsFraction frac := by
  unfold parseFraction
  split
  · next sep d rest =>
    split
    · next hc =>
      simp only [Bool.and_eq_true, Bool.or_eq_true, decide_eq_true_eq] at hc
      refine ⟨sep :: (d :: rest).takeWhile isDigitChar, ?_, Or.inr ⟨sep, _, rfl, hc.1, ?_, ?_⟩⟩
      · simp only [List.cons_append, List.takeWhile_append_dropWhile]
      · simp [List.takeWhile, hc.2]
      · intro c hc'
        exact (List.mem_takeWhile_imp hc')
    · exact ⟨[], rfl, Or.inl rfl⟩
  · exact ⟨[], rfl, Or.inl rfl⟩

theorem parseZone_inv (v : List Char) (h : parseZone v = true) :
    ∃ sp, IsSpaces sp ∧ v = sp ++ ['G', 'M', 'T', dquote] := by
  unfold parseZone at h
  split at h
  · cases h
  · next v1 h1 =>
    split at h
    · cases h
    · next v2 h2 =>
      split at h
      · cases h
      · next v3 h3 =>
        split at h
        · cases h
        · next v4 h4 =>
          split at h
          · cases h
          · next v5 h5 =>
            have e5 : v5 = [] := by simpa using h
            have e4 := skipChar_inv _ _ _ h5
            have e3 := skipChar_inv _ _ _ h4
            have e2 := skipChar_inv _ _ _ h3
            have e1 := skipChar_inv _ _ _ h2
            rw [e5] at e4
            rw [e4] at e3
            rw [e3] at e2
            rw [e2] at e1
            obtain ⟨sp, hsp, hv⟩ := skipSpace_inv v v1 h1 (by rw [e1]; simp)
            exact ⟨sp, hsp, by rw [hv, e1]⟩

theorem parseDate_inv (v r : List Char) (d m y : Nat)
    (h : parseDate v = some (d, m, y, r)) (hr : r ≠ []) :
    ∃ day sp1 mon sp2 year sp3,
      v = dquote :: (day ++ sp1 ++ mon ++ sp2 ++ year ++ sp3 ++ r) ∧
      day.length = 2 ∧ IsDigits day ∧ IsSpaces sp1 ∧ IsMonthName mon ∧ IsSpaces sp2 ∧
      year.length = 4 ∧ IsDigits year ∧ IsSpaces sp3 := by
  unfold parseDate at h
  split at h
  · cases h
  · next v1 h1 =>
    split at h
    · cases h
    · next day v2 h2 =>
      split at h
      · cases h
      · next v3 h3 =>
        split at h
        · cases h
        · next month v4 h4 =>
          split at h
          · cases h
          · next v5 h5 =>
            split at h
            · cases h
            · next year v6 h6 =>
              split at h
              · cases h
              · next v7 h7 =>
                simp only [Option.some.injEq, Prod.mk.injEq] at h
                obtain ⟨_, _, _, hv7⟩ := h
                subst hv7
                have e1 := skipChar_inv _ _ _ h1
                obtain ⟨ds, e2, hlen, hds⟩ := getnum_fixed_inv _ _ _ h2
                have hv3 : v3 ≠ [] := by
                  intro hnil
                  rw [hnil] at h4
                  cases h4
                obtain ⟨sp1, hsp1, e3⟩ := skipSpace_inv _ _ h3 hv3
                obtain ⟨mon, e4, name, hname, hmon⟩ := lookup_inv _ _ _ _ _ h4
                have hv5 : v5 ≠ [] := by
                  intro hnil
                  rw [hnil] at h6
                  cases h6
                obtain ⟨sp2, hsp2, e5⟩ := skipSpace_inv _ _ h5 hv5
                obtain ⟨ys, e6, hylen, hys⟩ := parseYear_inv _ _ _ h6
                obtain ⟨sp3, hsp3, e7⟩ := skipSpace_inv _ _ h7 hr
                refine ⟨ds, sp1, mon, sp2, ys, sp3, ?_, hlen, hds, hsp1, ⟨name, hname, hmon⟩, hsp2,
                  hylen, hys, hsp3⟩
                rw [e1, e2, e3, e4, e5, e6, e7]
                simp only [List.append_assoc]

theorem parseClock_inv (v r : List Char) (hh mi ss ns : Nat)
    (h : parseClock v = some (hh, mi, ss, ns, r)) :
    v ≠ [] ∧ ∃ hour minute second frac,
      v = hour ++ [':'] ++ minute ++ [':'] ++ second ++ frac ++ r ∧
      (hour.length = 1 ∨ hour.length = 2) ∧ IsDigits hour ∧
      minute.length = 2 ∧ IsDigits minute ∧ second.length = 2 ∧ IsDigits second ∧
      IsFraction frac := by
  constructor
  · intro hnil
    rw [hnil] at h
    cases h
  · unfold parseClock at h
    split at h
    · cases h
    · next hour v1 h1 =>
      split at h
      · cases h
      · split at h
        · cases h
        · next v2 h2 =>
          split at h
          · cases h
          · next minute v3 h3 =>
            split at h
            · cases h
            · split at h
              · cases h
              · next v4 h4 =>
                split at h
                · cases h
                · next second v5 h5 =>
                  split at h
                  · cases h
                  · split at h
                    next nsec v6 h6 =>
                    simp only [Option.some.injEq, Prod.mk.injEq] at h
                    obtain ⟨_, _, _, _, hv6⟩ := h
                    subst hv6
                    obtain ⟨hs, e1, hhlen, hhs⟩ := getnum_inv _ _ _ h1
                    have e2 := skipChar_inv _ _ _ h2
                    obtain ⟨ms, e3, hmlen, hms⟩ := getnum_fixed_inv _ _ _ h3
                    have e4 := skipChar_inv _ _ _ h4
                    obtain ⟨es, e5, helen, hes⟩ := getnum_fixed_inv _ _ _ h5
                    obtain ⟨frac, e6, hfrac⟩ := parseFraction_inv v5
                    rw [h6] at e6
                    refine ⟨hs, ms, es, frac, ?_, hhlen, hhs, hmlen, hms, helen, hes, hfrac⟩
                    rw [e1, e2, e3, e4, e5]
                    simp only [List.append_assoc, List.cons_append, List.nil_append]
                    rw [← e6]

/-- Every text that `time.Parse` accepts for the layout of
`Time.UnmarshalJSON` is in the relaxed format. -/
theorem timeParse_inv (b : List Char) (t : Time) (h : timeParse b = some t) :
    InRelaxedFormat b := by
  unfold timeParse at h
  split at h
  · cases h
  · next day month year v1 h1 =>
    split at h
    · cases h
    · next hour minute second nsec v2 h2 =>
      split at h
      · cases h
      · next hz =>
        have hz : parseZone v2 = true := by
          cases hp : parseZone v2 with
          | true => rfl
          | false => simp [hp] at hz
        obtain ⟨hne, hs, ms, es, frac, e2, hhlen, hhs, hmlen, hms, helen, hes, hfrac⟩ :=
          parseClock_inv _ _ _ _ _ _ h2
        obtain ⟨ds, sp1, mon, sp2, ys, sp3, e1, hlen, hds, hsp1, hmon, hsp2, hylen, hys, hsp3⟩ :=
          parseDate_inv _ _ _ _ _ h1 hne
        obtain ⟨sp4, hsp4, e3⟩ := parseZone_inv _ hz
        refine ⟨ds, sp1, mon, sp2, ys, sp3, hs, ms, es, frac, sp4, ?_, hlen, hds, hsp1, hmon,
          hsp2, hylen, hys, hsp3, hhlen, hhs, hmlen, hms, helen, hes, hfrac, hsp4⟩
        rw [e1, e2, e3]
        simp only [List.append_assoc]

/-! ## Timestamps out of the fixed format -/

theorem fixedChars_length (day month year hour minute second : Nat)
    (h1 : 1 ≤ month) (h12 : month ≤ 12) :
    (fixedChars day month year hour minute second).length = 26 := by
  have hm : (monthName month).length = 3 := by
    interval_cases month <;> rfl
  simp [fixedChars, pad2, pad4, hm]

theorem InFixedFormat_length (b : List Char) (h : InFixedFormat b) : b.length = 26 := by
  obtain ⟨day, month, year, hour, minute, second, _, h1, h12, _, _, _, _, hb⟩ := h
  rw [hb]
  exact fixedChars_length day month year hour minute second h1 h12

/-- In the relaxed format the fourth character is a space. -/
theorem InRelaxedFormat_space (b : List Char) (h : InRelaxedFormat b) : b.get? 3 = some ' ' := by
  obtain ⟨day, sp1, mon, sp2, year, sp3, hour, minute, second, frac, sp4, hb, hlen, _, hsp1, _⟩ := h
  match day, hlen with
  | [x, y], _ =>
    obtain ⟨hne, hall⟩ := hsp1
    cases sp1 with
    | nil => exact absurd rfl hne
    | cons s ss =>
      have hs : s = ' ' := hall s (List.mem_cons_self _ _)
      rw [hb, hs]
      simp

/-- Counterexample to C17: the JSON strings `"17 Mar 2021 9:00:00 GMT"` and
`"17 mar  2021 10:00:00.5 GMT"` are not in the fixed format, and
`Time.UnmarshalJSON` decodes them without error. -/
theorem Time.UnmarshalJSON_accepts_variants :
    ¬ InFixedFormat exShortHour.data ∧
    Time.UnmarshalJSON exShortHour Time.zero = (⟨2021, 3, 17, 9, 0, 0, 0⟩, none) ∧
    ¬ InFixedFormat exLoose.data ∧
    Time.UnmarshalJSON exLoose Time.zero = (⟨2021, 3, 17, 10, 0, 0, 500000000⟩, none) := by
  refine ⟨?_, by decide, ?_, by decide⟩
  · intro h
    have := InFixedFormat_length _ h
    revert this
    decide
  · intro h
    have := InFixedFormat_length _ h
    revert this
    decide

/-- C17, amended. For every text that does not start with `n`, as every JSON
string, and that is not in the fixed format `DD Mon YYYY HH:MM:SS GMT` even
when each space may be a run of spaces, the month name may be in any letter
case, the hour may have one digit and a fraction may follow the seconds,
`Time.UnmarshalJSON` returns an error and leaves the receiver as it was. -/
theorem Time.UnmarshalJSON_malformed (b : String) (t : Time)
    (hjson : b.data.head? ≠ some 'n') (hnot : ¬ InRelaxedFormat b.data) :
    Time.UnmarshalJSON b t = (t, some (.lib "time.ParseError")) := by
  unfold Time.UnmarshalJSON
  rw [if_neg hjson]
  cases hp : timeParse b.data with
  | none => rfl
  | some date => exact absurd (timeParse_inv b.data date hp) hnot

/-- Witness of C17, amended: the JSON string `"2021-03-17T10:00:00Z"`. -/
theorem Time.UnmarshalJSON_malformed_witness :
    exISO.data.head? ≠ some 'n' ∧ ¬ InRelaxedFormat exISO.data ∧
    Time.UnmarshalJSON exISO Time.zero = (Time.zero, some (.lib "time.ParseError")) :=
  have hnot : ¬ InRelaxedFormat exISO.data := fun h =>
    absurd (InRelaxedFormat_space _ h) (by decide)
  ⟨by decide, hnot, Time.UnmarshalJSON_malformed exISO Time.zero (by decide) hnot⟩

end Bandcamp
